import Mathlib

/-! Gauge wire converter (`parser/protoConverters.go`) and dispatcher
(`parser/parse.go`).

A shallow embedding of the conversion functions of package `parser` that turn the
syntax tree of a specification, and the suite/spec result aggregates, into the
`gauge_messages` message tree, and of the dispatcher that parses many files in
parallel tasks.

Conventions of the embedding:

* A Go pointer to a message or entity that the code may receive as `nil` is an
  `Option`; an optional (proto2) scalar field is an `Option` as well, so that
  `proto.String x` is `some x`.
* A Go slice is a `List`; a slice of pointers whose entries may be `nil`
  (`[]*ProtoItem`, `[]*Fragment`, `[]*ProtoTableRow`) is a `List (Option _)`.
* A run-time panic (nil pointer dereference) is `Except.error`.
* Go `int` and `int64` are `Int` wrapped to 64 bits, `int32` is wrapped to 32 bits.
* The `float32` returned by `getSuccessRate` is the conversion of an integer; it is
  represented by its exact value, which is again an integer.
* A channel is the list of the values it holds, oldest first; a function that
  sends takes the channels and returns them. The parallel tasks of the dispatcher
  are interleaved: a run is a sequence of atomic sends and receives.
-/

namespace Gauge

/-! ## Machine arithmetic -/

/-- Two's complement wrap-around of a Go `int` / `int64` (64 bits). -/
def wrapInt64 (x : Int) : Int := (x + 2 ^ 63) % 2 ^ 64 - 2 ^ 63

/-- Two's complement wrap-around of the Go conversion `int32(x)`. -/
def wrapInt32 (x : Int) : Int := (x + 2 ^ 31) % 2 ^ 32 - 2 ^ 31

/-- The range of a Go `int` on a 64-bit platform. -/
def isInt64 (x : Int) : Prop := -(2 ^ 63) ≤ x ∧ x < 2 ^ 63

instance (x : Int) : Decidable (isInt64 x) := by
  unfold isInt64
  exact inferInstance

/-- Position of the leading binary digit of `n` (`0` for `n < 2`); the first
argument bounds the number of halvings. -/
def floorLog2 : Nat → Nat → Nat
  | 0, _ => 0
  | fuel + 1, n => if n < 2 then 0 else floorLog2 fuel (n / 2) + 1

/-- The Go conversion `float32(v)` of an integer, as the exact value of the
resulting IEEE-754 single: integers of magnitude below `2 ^ 24` are kept, larger
ones are rounded to 24 significant bits, ties to even. -/
def toFloat32 (v : Int) : Int :=
  let a := v.natAbs
  if a < 2 ^ 24 then v
  else
    let e := floorLog2 a a - 23
    let q := a / 2 ^ e
    let r := a % 2 ^ e
    let half := 2 ^ (e - 1)
    let q1 := if half < r ∨ (r = half ∧ q % 2 = 1) then q + 1 else q
    Int.sign v * (q1 * 2 ^ e : Nat)

/-- Run-time failures of the Go code. -/
inductive Panic where
  | nilDereference
  deriving DecidableEq, Repr

/-! ## Messages of package `gauge_messages` -/

/-- Modelled from the spec: the kind discriminator of an item message
(`ProtoItem_ItemType`), declared in the generated package `gauge_messages`. -/
inductive ProtoItem_ItemType where
  | Step | Comment | Concept | Scenario | Table | Tags
  deriving DecidableEq, Repr

/-- Modelled from the spec: the kind discriminator of a fragment
(`Fragment_FragmentType`); an enum value outside the declared ones is
`unrecognized`. -/
inductive Fragment_FragmentType where
  | Text | Parameter | unrecognized (n : Int)
  deriving DecidableEq, Repr

/-- Modelled from the spec: the kind discriminator of a parameter message
(`Parameter_ParameterType`); an enum value outside the declared ones is
`unrecognized`. -/
inductive Parameter_ParameterType where
  | Static | Dynamic | Special_String | Special_Table | Table | unrecognized (n : Int)
  deriving DecidableEq, Repr

/-- Modelled from the spec: a row message, an ordered list of cell strings. -/
structure ProtoTableRow where
  Cells : List String
  deriving DecidableEq, Repr

/-- Modelled from the spec: a table message, a header row and an ordered list of
row messages. -/
structure ProtoTable where
  Headers : Option ProtoTableRow
  Rows : List (Option ProtoTableRow)
  deriving DecidableEq, Repr

/-- Modelled from the spec: a parameter message: kind, name, value (scalar kinds)
or embedded table (table kinds). -/
structure Parameter where
  ParameterType : Option Parameter_ParameterType
  Value : Option String
  Name : Option String
  Table : Option ProtoTable
  deriving DecidableEq, Repr

/-- Modelled from the spec: a fragment of a step, literal text or a parameter. -/
structure Fragment where
  FragmentType : Option Fragment_FragmentType
  Text : Option String
  Parameter : Option Parameter
  deriving DecidableEq, Repr

/-- Modelled from the spec: the execution result attached to a step message; its
content is produced by the execution engine and only carried here. -/
structure ProtoStepExecutionResult where
  payload : String
  deriving DecidableEq, Repr

/-- Modelled from the spec: a hook failure indicator of a suite result; its
content is produced by the execution engine and only carried here. -/
structure ProtoHookFailure where
  payload : String
  deriving DecidableEq, Repr

/-- Modelled from the spec: a step message: actual text, parsed text, ordered
fragment list, and the execution result once one is attached. -/
structure ProtoStep where
  ActualText : Option String
  ParsedText : Option String
  Fragments : List (Option Fragment)
  StepExecutionResult : Option ProtoStepExecutionResult
  deriving DecidableEq, Repr

/-- Modelled from the spec: a comment message. -/
structure ProtoComment where
  Text : Option String
  deriving DecidableEq, Repr

/-- Modelled from the spec: a tags message, a flat ordered list of strings. -/
structure ProtoTags where
  Tags : List String
  deriving DecidableEq, Repr

mutual
/-- Modelled from the spec: the tagged item message: a kind discriminator and one
optional payload per kind. -/
inductive ProtoItem where
  | mk (ItemType : Option ProtoItem_ItemType) (Step : Option ProtoStep)
      (Concept : Option ProtoConcept) (Scenario : Option ProtoScenario)
      (Comment : Option ProtoComment) (Table : Option ProtoTable)
      (Tags : Option ProtoTags)
/-- Modelled from the spec: a concept message: the invoking step message and its
ordered expanded-step message list. -/
inductive ProtoConcept where
  | mk (ConceptStep : Option ProtoStep) (Steps : List (Option ProtoItem))
/-- Modelled from the spec: a scenario message: heading, failed flag, contexts,
ordered items, tags, execution time. -/
inductive ProtoScenario where
  | mk (ScenarioHeading : Option String) (Failed : Option Bool)
      (Contexts : List (Option ProtoItem)) (ScenarioItems : List (Option ProtoItem))
      (Tags : List String) (ExecutionTime : Option Int)
end

/-- Modelled from the spec: a spec message: heading, ordered items, table-driven
flag, file name, tags. -/
structure ProtoSpec where
  Items : List (Option ProtoItem)
  SpecHeading : Option String
  IsTableDriven : Option Bool
  FileName : Option String
  Tags : List String

/-- Discriminator field of an item message. -/
def ProtoItem.ItemType : ProtoItem → Option ProtoItem_ItemType
  | .mk t _ _ _ _ _ _ => t

/-- Step payload of an item message. -/
def ProtoItem.Step : ProtoItem → Option ProtoStep
  | .mk _ s _ _ _ _ _ => s

/-- Concept payload of an item message. -/
def ProtoItem.Concept : ProtoItem → Option ProtoConcept
  | .mk _ _ c _ _ _ _ => c

/-- Scenario payload of an item message. -/
def ProtoItem.Scenario : ProtoItem → Option ProtoScenario
  | .mk _ _ _ s _ _ _ => s

/-- Comment payload of an item message. -/
def ProtoItem.Comment : ProtoItem → Option ProtoComment
  | .mk _ _ _ _ c _ _ => c

/-- Table payload of an item message. -/
def ProtoItem.Table : ProtoItem → Option ProtoTable
  | .mk _ _ _ _ _ t _ => t

/-- Tags payload of an item message. -/
def ProtoItem.Tags : ProtoItem → Option ProtoTags
  | .mk _ _ _ _ _ _ t => t

/-- The kinds whose payload field of an item message is populated (non-nil), in
field order. -/
def ProtoItem.populated (p : ProtoItem) : List ProtoItem_ItemType :=
  (if p.Step.isSome then [ProtoItem_ItemType.Step] else []) ++
  (if p.Concept.isSome then [ProtoItem_ItemType.Concept] else []) ++
  (if p.Scenario.isSome then [ProtoItem_ItemType.Scenario] else []) ++
  (if p.Comment.isSome then [ProtoItem_ItemType.Comment] else []) ++
  (if p.Table.isSome then [ProtoItem_ItemType.Table] else []) ++
  (if p.Tags.isSome then [ProtoItem_ItemType.Tags] else [])

/-- Invoking step of a concept message. -/
def ProtoConcept.ConceptStep : ProtoConcept → Option ProtoStep
  | .mk s _ => s

/-- Expanded steps of a concept message. -/
def ProtoConcept.Steps : ProtoConcept → List (Option ProtoItem)
  | .mk _ l => l

/-- Heading of a scenario message. -/
def ProtoScenario.ScenarioHeading : ProtoScenario → Option String
  | .mk h _ _ _ _ _ => h

/-- Failed flag of a scenario message. -/
def ProtoScenario.Failed : ProtoScenario → Option Bool
  | .mk _ f _ _ _ _ => f

/-- Contexts of a scenario message. -/
def ProtoScenario.Contexts : ProtoScenario → List (Option ProtoItem)
  | .mk _ _ c _ _ _ => c

/-- Items of a scenario message. -/
def ProtoScenario.ScenarioItems : ProtoScenario → List (Option ProtoItem)
  | .mk _ _ _ i _ _ => i

/-- Tags of a scenario message. -/
def ProtoScenario.Tags : ProtoScenario → List String
  | .mk _ _ _ _ t _ => t

/-- Execution time of a scenario message. -/
def ProtoScenario.ExecutionTime : ProtoScenario → Option Int
  | .mk _ _ _ _ _ e => e

/-- Modelled from the spec: the generated getter `GetCells`, nil-safe. -/
def GetCells : Option ProtoTableRow → List String
  | none => []
  | some r => r.Cells

/-- Modelled from the spec: the generated getter `GetHeaders`, nil-safe. -/
def GetHeaders : Option ProtoTable → Option ProtoTableRow
  | none => none
  | some t => t.Headers

/-- Modelled from the spec: the generated getter `GetRows`, nil-safe. -/
def GetRows : Option ProtoTable → List (Option ProtoTableRow)
  | none => []
  | some t => t.Rows

/-- Modelled from the spec: the generated getter `GetFragmentType`; an unset
discriminator reads as `Text`, the first declared value. -/
def GetFragmentType : Option Fragment → Fragment_FragmentType
  | some ⟨some t, _, _⟩ => t
  | _ => Fragment_FragmentType.Text

/-- Modelled from the spec: the generated getter `GetText`; unset reads as the
empty string. -/
def GetText : Option Fragment → String
  | some ⟨_, some t, _⟩ => t
  | _ => ""

/-- Modelled from the spec: the generated getter `GetParameterType`; an unset
discriminator reads as `Static`, the first declared value. -/
def GetParameterType : Option Parameter → Parameter_ParameterType
  | some ⟨some t, _, _, _⟩ => t
  | _ => Parameter_ParameterType.Static

/-- Modelled from the spec: the generated getter `GetValue`; unset reads as the
empty string. -/
def GetValue : Option Parameter → String
  | some ⟨_, some v, _, _⟩ => v
  | _ => ""

/-- Modelled from the spec: the generated getter `GetName`; unset reads as the
empty string. -/
def GetName : Option Parameter → String
  | some ⟨_, _, some n, _⟩ => n
  | _ => ""

/-- Modelled from the spec: the generated getter `GetTable`, nil-safe. -/
def GetTable : Option Parameter → Option ProtoTable
  | none => none
  | some p => p.Table

/-! ## Entities of package `parser` and of package `result` -/

/-- Modelled from the spec: a heading, the text of a specification or scenario
title. -/
structure Heading where
  value : String
  deriving DecidableEq, Repr

/-- Modelled from the spec: an ordered sequence of tag strings. -/
structure Tags where
  values : List String
  deriving DecidableEq, Repr

/-- Modelled from the spec: a comment line. -/
structure Comment where
  value : String
  deriving DecidableEq, Repr

/-- Modelled from the spec: a table, an ordered header row plus an ordered
sequence of data rows; `rows` is what the method `Rows()` hands out. -/
structure Table where
  Headers : List String
  rows : List (List String)
  deriving DecidableEq, Repr

/-- Modelled from the spec: the method `Rows()` of a table, its data rows in
order, each a sequence of cell strings. -/
def Table.Rows (table : Table) : List (List String) := table.rows

/-- Modelled from the spec: the kind of a step argument; a value outside the five
declared kinds is `other`. -/
inductive ArgType where
  | Static | Dynamic | TableArg | SpecialString | SpecialTable | other (name : String)
  deriving DecidableEq, Repr

/-- Modelled from the spec: a step argument: kind, name, scalar value and
embedded table. -/
structure StepArg where
  ArgType : ArgType
  Name : String
  Value : String
  Table : Table
  deriving DecidableEq, Repr

/-- Modelled from the spec: a step: raw line text, normalized value, concept
flag, ordered fragments, and the nested steps of a concept reference. -/
inductive Step where
  | mk (lineText : String) (value : String) (isConcept : Bool)
      (fragments : List (Option Fragment)) (conceptSteps : List Step)

/-- Raw source line of a step. -/
def Step.lineText : Step → String
  | .mk l _ _ _ _ => l

/-- Normalized value of a step. -/
def Step.value : Step → String
  | .mk _ v _ _ _ => v

/-- Concept flag of a step. -/
def Step.isConcept : Step → Bool
  | .mk _ _ c _ _ => c

/-- Fragments of a step. -/
def Step.fragments : Step → List (Option Fragment)
  | .mk _ _ _ f _ => f

/-- Nested steps of a concept reference. -/
def Step.conceptSteps : Step → List Step
  | .mk _ _ _ _ s => s

/-- Modelled from the spec: the kind reported by an item for dispatch; a kind the
converter has no case for is `otherKind`. -/
inductive TokenKind where
  | scenarioKind | stepKind | commentKind | tableKind | tagKind | otherKind (n : Nat)
  deriving DecidableEq, Repr

mutual
/-- Modelled from the spec: an item of a specification or scenario body,
polymorphic over its variants; `other` is an item of a kind the converter has no
case for. -/
inductive Item where
  | scenario (s : Scenario)
  | step (s : Step)
  | comment (c : Comment)
  | table (t : Table)
  | tags (t : Tags)
  | other (n : Nat)
/-- Modelled from the spec: a scenario: heading, tags (possibly absent), ordered
body items. -/
inductive Scenario where
  | mk (heading : Heading) (tags : Option Tags) (items : List Item)
end

/-- Kind reported by an item (the method `kind()`). -/
def Item.kind : Item → TokenKind
  | .scenario _ => .scenarioKind
  | .step _ => .stepKind
  | .comment _ => .commentKind
  | .table _ => .tableKind
  | .tags _ => .tagKind
  | .other n => .otherKind n

/-- Heading of a scenario. -/
def Scenario.heading : Scenario → Heading
  | .mk h _ _ => h

/-- Tag set of a scenario, absent when the scenario declares none. -/
def Scenario.tags : Scenario → Option Tags
  | .mk _ t _ => t

/-- Body items of a scenario. -/
def Scenario.items : Scenario → List Item
  | .mk _ _ i => i

/-- Modelled from the spec: one parsed document: heading, ordered items, tags
(possibly absent), originating file identifier. -/
structure Specification where
  heading : Heading
  items : List Item
  tags : Option Tags
  FileName : String

/-- Modelled from the spec: a per-spec result aggregate of package `result`. -/
structure SpecResult where
  ProtoSpec : Option ProtoSpec
  ScenarioCount : Int
  ScenarioFailedCount : Int
  IsFailed : Bool
  FailedDataTableRows : List Int
  ExecutionTime : Int

/-- Modelled from the spec: the suite result aggregate of package `result`. -/
structure SuiteResult where
  PreSuite : Option ProtoHookFailure
  PostSuite : Option ProtoHookFailure
  IsFailed : Bool
  SpecsFailedCount : Int
  ExecutionTime : Int
  SpecResults : List SpecResult
  Environment : String
  Tags : String
  ProjectName : String
  Timestamp : String

/-- Modelled from the spec: the spec-result message. -/
structure ProtoSpecResult where
  ProtoSpec : Option ProtoSpec
  ScenarioCount : Option Int
  ScenarioFailedCount : Option Int
  Failed : Option Bool
  FailedDataTableRows : List Int
  ExecutionTime : Option Int

/-- Modelled from the spec: the suite-result message; `SuccessRate` holds the
exact value of the `float32`. -/
structure ProtoSuiteResult where
  PreHookFailure : Option ProtoHookFailure
  PostHookFailure : Option ProtoHookFailure
  Failed : Option Bool
  SpecsFailedCount : Option Int
  ExecutionTime : Option Int
  SpecResults : List ProtoSpecResult
  SuccessRate : Option Int
  Environment : Option String
  Tags : Option String
  ProjectName : Option String
  Timestamp : Option String

/-! ## The converters -/

/-- Copy of a row message (`makeProtoTableRowCopy`). -/
def makeProtoTableRowCopy (tableRow : Option ProtoTableRow) : ProtoTableRow :=
  { Cells := [] ++ GetCells tableRow }

/-- Copy of a table message (`makeTableCopy`). -/
def makeTableCopy (table : Option ProtoTable) : ProtoTable :=
  { Headers := some (makeProtoTableRowCopy (GetHeaders table)),
    Rows := (GetRows table).map fun tableRow => some (makeProtoTableRowCopy tableRow) }

/-- Copy of a parameter message (`makeParameterCopy`); a parameter of no
recognized kind is returned as it is. -/
def makeParameterCopy (parameter : Option Parameter) : Option Parameter :=
  match GetParameterType parameter with
  | .Static => some { ParameterType := some .Static, Value := some (GetValue parameter),
                      Name := some (GetName parameter), Table := none }
  | .Dynamic => some { ParameterType := some .Dynamic, Value := some (GetValue parameter),
                       Name := some (GetName parameter), Table := none }
  | .Table => some { ParameterType := some .Table, Value := none,
                     Name := some (GetName parameter),
                     Table := some (makeTableCopy (GetTable parameter)) }
  | .Special_String => some { ParameterType := some .Special_String,
                              Value := some (GetValue parameter),
                              Name := some (GetName parameter), Table := none }
  | .Special_Table => some { ParameterType := some .Special_Table, Value := none,
                             Name := some (GetName parameter),
                             Table := some (makeTableCopy (GetTable parameter)) }
  | .unrecognized _ => parameter

/-- Copy of a fragment (`makeFragmentCopy`): a text fragment is copied as text,
every other fragment as a parameter fragment. The field `fragment.Parameter` is
read only in the second branch, which a nil fragment never takes. -/
def makeFragmentCopy (fragment : Option Fragment) : Fragment :=
  if GetFragmentType fragment = Fragment_FragmentType.Text then
    { FragmentType := some .Text, Text := some (GetText fragment), Parameter := none }
  else
    { FragmentType := some .Parameter, Text := none,
      Parameter := makeParameterCopy (fragment.bind fun f => f.Parameter) }

/-- Copy of a fragment list (`makeFragmentsCopy`). -/
def makeFragmentsCopy (fragments : List (Option Fragment)) : List (Option Fragment) :=
  fragments.map fun fragment => some (makeFragmentCopy fragment)

/-- Step message of a step (`convertToProtoStep`). -/
def convertToProtoStep (step : Step) : ProtoStep :=
  { ActualText := some step.lineText, ParsedText := some step.value,
    Fragments := makeFragmentsCopy step.fragments, StepExecutionResult := none }

/-- Step messages of a list of steps (`convertToProtoSteps`). -/
def convertToProtoSteps (steps : List Step) : List (Option ProtoStep) :=
  steps.map fun step => some (convertToProtoStep step)

/-- The nested steps of a step are smaller than the step. -/
theorem Step.sizeOf_conceptSteps_lt (step : Step) :
    sizeOf step.conceptSteps < sizeOf step := by
  cases step
  simp only [Step.conceptSteps, Step.mk.sizeOf_spec]
  omega

mutual
/-- Item message of a step (`convertToProtoStepItem`): a concept message for a
concept reference, a step message otherwise. -/
def convertToProtoStepItem (step : Step) : ProtoItem :=
  if step.isConcept then
    convertToProtoConcept step
  else
    .mk (some .Step) (some (convertToProtoStep step)) none none none none none
termination_by (sizeOf step, 1)
decreasing_by
  exact Prod.Lex.right _ (by decide)
/-- Item messages of a list of steps (`convertToProtoStepItems`). -/
def convertToProtoStepItems (steps : List Step) : List (Option ProtoItem) :=
  match steps with
  | [] => []
  | step :: rest => some (convertToProtoStepItem step) :: convertToProtoStepItems rest
termination_by (sizeOf steps, 0)
decreasing_by
  · exact Prod.Lex.left _ _ (by simp only [List.cons.sizeOf_spec]; omega)
  · exact Prod.Lex.left _ _ (by simp only [List.cons.sizeOf_spec]; omega)
/-- Concept item message of a concept reference (`convertToProtoConcept`). -/
def convertToProtoConcept (concept : Step) : ProtoItem :=
  .mk (some .Concept) none
    (some (.mk (some (convertToProtoStep concept))
      (convertToProtoStepItems concept.conceptSteps)))
    none none none none
termination_by (sizeOf concept, 0)
decreasing_by
  exact Prod.Lex.left _ _ (Step.sizeOf_conceptSteps_lt concept)
end

/-- Tag strings of a tag set (`getAllTags`); reading `tags.values` of a nil tag
set is a nil pointer dereference. -/
def getAllTags (tags : Option Tags) : Except Panic (List String) :=
  match tags with
  | none => .error .nilDereference
  | some t => .ok (t.values.map fun tag => tag)

/-- Tags message of a tag set (`convertToProtoTags`). -/
def convertToProtoTags (tags : Option Tags) : Except Panic ProtoTags := do
  let allTags ← getAllTags tags
  pure { Tags := allTags }

/-- Item message of a tags item (`convertToProtoTagItem`). -/
def convertToProtoTagItem (tags : Option Tags) : Except Panic ProtoItem := do
  let protoTags ← convertToProtoTags tags
  pure (.mk (some .Tags) none none none none none (some protoTags))

/-- Item message of a comment (`convertToProtoCommentItem`). -/
def convertToProtoCommentItem (comment : Comment) : ProtoItem :=
  .mk (some .Comment) none none none (some { Text := some comment.value }) none none

/-- Table message of a table (`convertToProtoTableParam`). -/
def convertToProtoTableParam (table : Table) : ProtoTable :=
  { Headers := some { Cells := table.Headers },
    Rows := table.Rows.map fun row => some { Cells := row } }

/-- Item message of a table (`convertToProtoTableItem`). -/
def convertToProtoTableItem (table : Table) : ProtoItem :=
  .mk (some .Table) none none none none (some (convertToProtoTableParam table)) none

/-- Parameter message of a step argument (`convertToProtoParameter`); nil for an
argument of no recognized kind. -/
def convertToProtoParameter (arg : StepArg) : Option Parameter :=
  match arg.ArgType with
  | .Static => some { ParameterType := some .Static, Value := some arg.Value,
                      Name := some arg.Name, Table := none }
  | .Dynamic => some { ParameterType := some .Dynamic, Value := some arg.Value,
                       Name := some arg.Name, Table := none }
  | .TableArg => some { ParameterType := some .Table, Value := none,
                        Name := some arg.Name,
                        Table := some (convertToProtoTableParam arg.Table) }
  | .SpecialString => some { ParameterType := some .Special_String,
                             Value := some arg.Value, Name := some arg.Name,
                             Table := none }
  | .SpecialTable => some { ParameterType := some .Special_Table, Value := none,
                            Name := some arg.Name,
                            Table := some (convertToProtoTableParam arg.Table) }
  | .other _ => none

/-- Parameter messages of a list of step arguments (`convertToProtoParameters`). -/
def convertToProtoParameters (args : List StepArg) : List (Option Parameter) :=
  args.map fun arg => convertToProtoParameter arg

/-- Tag strings of a possibly absent tag set (`getTags`). -/
def getTags (tags : Option Tags) : List String :=
  match tags with
  | some t => t.values
  | none => []

/-- Fresh scenario message of a scenario (`newProtoScenario`): heading, failed
flag, tags, empty contexts, zero execution time; the items field is not set. -/
def newProtoScenario (scenario : Scenario) : ProtoScenario :=
  .mk (some scenario.heading.value) (some false) [] [] (getTags scenario.tags) (some 0)

mutual
/-- Item message of an item (`convertToProtoItem`), by kind; nil for an item of
no recognized kind. -/
def convertToProtoItem (item : Item) : Except Panic (Option ProtoItem) :=
  match item with
  | .scenario scenario => do
    let protoItem ← convertToProtoScenarioItem scenario
    pure (some protoItem)
  | .step step => pure (some (convertToProtoStepItem step))
  | .comment comment => pure (some (convertToProtoCommentItem comment))
  | .table table => pure (some (convertToProtoTableItem table))
  | .tags tags => do
    let protoItem ← convertToProtoTagItem (some tags)
    pure (some protoItem)
  | .other _ => pure none
/-- Item message of a scenario (`convertToProtoScenarioItem`): the body items are
converted into the local list `scenarioItems`, which the returned message does
not use. -/
def convertToProtoScenarioItem (scenario : Scenario) : Except Panic ProtoItem :=
  match scenario with
  | .mk heading tags items => do
    let _scenarioItems ← convertItems items
    let protoScenario := newProtoScenario (.mk heading tags items)
    pure (.mk (some .Scenario) none none (some protoScenario) none none none)
/-- The loop `for _, item := range items` that appends `convertToProtoItem item`
to an initially empty list, shared by `convertToProtoScenarioItem` and
`convertToProtoSpec`. -/
def convertItems (items : List Item) : Except Panic (List (Option ProtoItem)) :=
  match items with
  | [] => pure []
  | item :: rest => do
    let protoItem ← convertToProtoItem item
    let protoItems ← convertItems rest
    pure (protoItem :: protoItems)
end

/-- Fresh spec message of a specification (`newProtoSpec`). -/
def newProtoSpec (specification : Specification) : ProtoSpec :=
  { Items := [],
    SpecHeading := some specification.heading.value,
    IsTableDriven := some false,
    FileName := some specification.FileName,
    Tags := getTags specification.tags }

/-- Spec message of a specification (`convertToProtoSpec`). -/
def convertToProtoSpec (spec : Specification) : Except Panic ProtoSpec := do
  let protoSpec := newProtoSpec spec
  let protoItems ← convertItems spec.items
  pure { protoSpec with Items := protoItems }

/-- Success rate of a suite (`getSuccessRate`): integer arithmetic on Go `int`,
truncating division, then the conversion to `float32`. -/
def getSuccessRate (totalSpecs failedSpecs : Int) : Int :=
  if totalSpecs = 0 then 0
  else
    toFloat32 (wrapInt64 (Int.tdiv
      (wrapInt64 (100 * wrapInt64 (totalSpecs - failedSpecs))) totalSpecs))

/-- Spec-result messages of a list of spec results (`convertToProtoSpecResult`). -/
def convertToProtoSpecResult (specResults : List SpecResult) : List ProtoSpecResult :=
  specResults.map fun specResult =>
    { ProtoSpec := specResult.ProtoSpec,
      ScenarioCount := some (wrapInt32 specResult.ScenarioCount),
      ScenarioFailedCount := some (wrapInt32 specResult.ScenarioFailedCount),
      Failed := some specResult.IsFailed,
      FailedDataTableRows := specResult.FailedDataTableRows,
      ExecutionTime := some specResult.ExecutionTime }

/-- Suite-result message of a suite result (`convertToProtoSuiteResult`). -/
def convertToProtoSuiteResult (suiteResult : SuiteResult) : ProtoSuiteResult :=
  { PreHookFailure := suiteResult.PreSuite,
    PostHookFailure := suiteResult.PostSuite,
    Failed := some suiteResult.IsFailed,
    SpecsFailedCount := some (wrapInt32 suiteResult.SpecsFailedCount),
    ExecutionTime := some suiteResult.ExecutionTime,
    SpecResults := convertToProtoSpecResult suiteResult.SpecResults,
    SuccessRate := some (getSuccessRate suiteResult.SpecResults.length
      suiteResult.SpecsFailedCount),
    Environment := some suiteResult.Environment,
    Tags := some suiteResult.Tags,
    ProjectName := some suiteResult.ProjectName,
    Timestamp := some suiteResult.Timestamp }

/-! ## Notions used to state the properties -/

/-- An outcome of `convertToProtoItem` that is a node of kind `k`: the conversion
returned a non-nil item message whose discriminator is `k` and whose only
populated payload is the one of kind `k`. -/
def isNodeOfKind (r : Except Panic (Option ProtoItem)) (k : ProtoItem_ItemType) : Prop :=
  ∃ p, r = .ok (some p) ∧ p.ItemType = some k ∧ p.populated = [k]

/-- The step reached from `step` by following `path`: at each index of the path
the step must be a concept reference, and the walk goes on in the nested step at
that index. -/
def Step.nestedAt (step : Step) (path : List Nat) : Option Step :=
  match path with
  | [] => some step
  | i :: rest =>
    if step.isConcept then
      match step.conceptSteps[i]? with
      | some nested => nested.nestedAt rest
      | none => none
    else none

/-- The item message reached from `item` by following `path`: at each index of
the path the message must carry a concept payload, and the walk goes on in the
entry of its `Steps` list at that index. -/
def ProtoItem.nestedAt (item : ProtoItem) (path : List Nat) : Option ProtoItem :=
  match path with
  | [] => some item
  | i :: rest =>
    match item.Concept with
    | none => none
    | some concept =>
      match concept.Steps[i]? with
      | some (some nested) => nested.nestedAt rest
      | _ => none

/-- Attaching an execution result to an item message (`addExecutionResult`);
the item is passed in and the updated item is returned. Without a result nothing
is touched; with a result the field `StepExecutionResult` of the step payload is
assigned, which dereferences `protoItem.Step`. -/
def addExecutionResult (protoItem : ProtoItem)
    (protoStepExecutionResult : Option ProtoStepExecutionResult) : Except Panic ProtoItem :=
  match protoStepExecutionResult with
  | none => .ok protoItem
  | some result =>
    match protoItem with
    | .mk itemType (some step) concept scenario comment table tags =>
      .ok (.mk itemType (some { step with StepExecutionResult := some result })
        concept scenario comment table tags)
    | .mk _ none _ _ _ _ _ => .error .nilDereference

/-- The parameter of a fragment, nil for a nil fragment. -/
def fragmentParameter (fragment : Option Fragment) : Option Parameter :=
  fragment.bind fun f => f.Parameter

/-- A parameter of one of the five declared kinds. -/
def isDeclaredKind : Parameter_ParameterType → Bool
  | .unrecognized _ => false
  | _ => true

/-- A parameter kind that carries a scalar value. -/
def isScalarKind : Parameter_ParameterType → Bool
  | .Static | .Dynamic | .Special_String => true
  | _ => false

/-- A parameter kind that carries an embedded table. -/
def isTableKind : Parameter_ParameterType → Bool
  | .Table | .Special_Table => true
  | _ => false

/-- A well-formed fragment: a Text fragment, or a Parameter fragment whose
parameter has one of the five declared kinds. -/
def wellFormedFragment (fragment : Option Fragment) : Bool :=
  match GetFragmentType fragment with
  | .Text => true
  | .Parameter => isDeclaredKind (GetParameterType (fragmentParameter fragment))
  | .unrecognized _ => false

/-- The cells of the header row and of every row of a table message, as read
through the getters. -/
def tableCells (table : Option ProtoTable) : List String × List (List String) :=
  (GetCells (GetHeaders table), (GetRows table).map GetCells)

/-- The values a reader obtains from a fragment through the getters: fragment
type, text of a Text fragment, and for a Parameter fragment the kind and name of
its parameter, its value for a scalar kind, and the cells of its table for a
table kind. -/
def sameFragmentValue (a b : Option Fragment) : Prop :=
  GetFragmentType a = GetFragmentType b ∧
  (GetFragmentType a = .Text → GetText a = GetText b) ∧
  (GetFragmentType a = .Parameter →
    GetParameterType (fragmentParameter a) = GetParameterType (fragmentParameter b) ∧
    GetName (fragmentParameter a) = GetName (fragmentParameter b) ∧
    (isScalarKind (GetParameterType (fragmentParameter a)) = true →
      GetValue (fragmentParameter a) = GetValue (fragmentParameter b)) ∧
    (isTableKind (GetParameterType (fragmentParameter a)) = true →
      tableCells (GetTable (fragmentParameter a))
        = tableCells (GetTable (fragmentParameter b))))

/-! ## The dispatcher (`parser/parse.go`) -/

/-- Modelled from the spec: the diagnostic of a failed parse, its message. -/
structure ParseError where
  Message : String
  deriving DecidableEq, Repr

/-- Modelled from the spec: the per-file outcome: an optional diagnostic, the
success flag and the originating file identifier. -/
structure ParseResult where
  ParseError : Option ParseError
  Ok : Bool
  FileName : String
  deriving DecidableEq, Repr

/-- Modelled from the spec: the two collaborators of a parse task, for a concept
dictionary of type `D`: `ReadFileContents` of package `common`, which gives the
content of a file or the text of an I/O error, and the method `parse` of
`SpecParser`, which gives a Specification (nil when parsing fails) and a parse
result. -/
structure Collaborators (D : Type) where
  ReadFileContents : String → Except String String
  parse : String → D → Option Specification × ParseResult

/-- One parse task (`parseSpec`). The two channels are passed in and returned
with what the task has sent appended: first the Specification slot on
`specChannel`, then the result on `parseResultChan`. Stamping the file name on a
nil Specification is a nil pointer dereference. -/
def parseSpec {D : Type} (env : Collaborators D) (specFile : String) (conceptDictionary : D)
    (specChannel : List (Option Specification)) (parseResultChan : List ParseResult) :
    Except Panic (List (Option Specification) × List ParseResult) :=
  match env.ReadFileContents specFile with
  | .error err =>
    .ok (specChannel ++ [none],
      parseResultChan ++ [{ ParseError := some { Message := err }, Ok := false,
                            FileName := specFile }])
  | .ok specFileContent =>
    let spec := (env.parse specFileContent conceptDictionary).1
    let parseResult :=
      { (env.parse specFileContent conceptDictionary).2 with FileName := specFile }
    if !parseResult.Ok then
      .ok (specChannel ++ [none], parseResultChan ++ [parseResult])
    else
      match spec with
      | none => .error .nilDereference
      | some spec =>
        .ok (specChannel ++ [some { spec with FileName := specFile }],
          parseResultChan ++ [parseResult])

/-- State of a run of `ParseSpecFiles` after the parse tasks have been launched:
the files of the tasks that have sent nothing yet, the files of the tasks that
have sent their Specification slot but not their result, the contents of the two
buffered channels, the two lists built by the collecting loop, the number of
iterations of that loop not yet completed, and whether the current iteration has
received its result and still waits for its Specification slot. -/
structure DispatchState where
  unsent : List String
  halfSent : List String
  specsChan : List (Option Specification)
  parseResultsChan : List ParseResult
  parseResults : List ParseResult
  specs : List (Option Specification)
  pending : Nat
  gotResult : Bool

/-- One atomic action of a run: the task of a file performs its first or its
second send, or the collecting loop performs its first or its second receive. -/
inductive Action where
  | sendSpec (specFile : String)
  | sendResult (specFile : String)
  | recvResult
  | recvSpec
  deriving DecidableEq, Repr

/-- The state in which `ParseSpecFiles` has launched one task per file and
enters the collecting loop: both channels and both lists are empty. -/
def DispatchState.init (specFiles : List String) : DispatchState :=
  { unsent := specFiles, halfSent := [], specsChan := [], parseResultsChan := [],
    parseResults := [], specs := [], pending := specFiles.length, gotResult := false }

/-- Effect of one action, `none` when the action cannot be taken: a send needs a
task at that point, room in the channel (capacity `cap`) and a task that does
not panic; a receive needs the collecting loop at that point and a value in the
channel. The sends are those of `parseSpec`: the first send of a task is what
`parseSpec` does to `specChannel`, the second what it does to `parseResultChan`,
and other actions may take place in between. The loop appends every result, and
a Specification only when it is not nil. -/
def DispatchState.step {D : Type} (env : Collaborators D) (conceptDictionary : D) (cap : Nat)
    (s : DispatchState) : Action → Option DispatchState
  | .sendSpec specFile =>
    if specFile ∈ s.unsent ∧ s.specsChan.length < cap then
      match parseSpec env specFile conceptDictionary s.specsChan [] with
      | .ok (specsChan, _) =>
        some { s with unsent := s.unsent.erase specFile, halfSent := specFile :: s.halfSent,
                      specsChan := specsChan }
      | .error _ => none
    else none
  | .sendResult specFile =>
    if specFile ∈ s.halfSent ∧ s.parseResultsChan.length < cap then
      match parseSpec env specFile conceptDictionary [] s.parseResultsChan with
      | .ok (_, parseResultsChan) =>
        some { s with halfSent := s.halfSent.erase specFile,
                      parseResultsChan := parseResultsChan }
      | .error _ => none
    else none
  | .recvResult =>
    if s.gotResult = false ∧ 0 < s.pending then
      match s.parseResultsChan with
      | parseResult :: rest =>
        some { s with parseResultsChan := rest,
                      parseResults := s.parseResults ++ [parseResult], gotResult := true }
      | [] => none
    else none
  | .recvSpec =>
    if s.gotResult = true ∧ 0 < s.pending then
      match s.specsChan with
      | spec :: rest =>
        some { s with specsChan := rest,
                      specs := if spec.isSome then s.specs ++ [spec] else s.specs,
                      pending := s.pending - 1, gotResult := false }
      | [] => none
    else none

/-- Effect of a sequence of actions, `none` when one of them cannot be taken. -/
def DispatchState.run {D : Type} (env : Collaborators D) (conceptDictionary : D) (cap : Nat)
    (s : DispatchState) : List Action → Option DispatchState
  | [] => some s
  | action :: rest =>
    match s.step env conceptDictionary cap action with
    | some next => next.run env conceptDictionary cap rest
    | none => none

/-- The dispatcher (`ParseSpecFiles`) under a schedule, the order in which the
sends of the tasks and the receives of the collecting loop take place: both
channels have capacity `len(specFiles)`; the function returns the two lists once
the collecting loop has completed its `len(specFiles)` iterations, and `none`
stands for a schedule that cannot take place or that ends before the loop
does. -/
def ParseSpecFiles {D : Type} (env : Collaborators D) (specFiles : List String)
    (conceptDictionary : D) (schedule : List Action) :
    Option (List (Option Specification) × List ParseResult) :=
  match (DispatchState.init specFiles).run env conceptDictionary specFiles.length schedule with
  | some s => if s.pending = 0 then some (s.specs, s.parseResults) else none
  | none => none

/-- The result that the task of a file sends. -/
def taskResult {D : Type} (env : Collaborators D) (conceptDictionary : D) (specFile : String) :
    ParseResult :=
  match env.ReadFileContents specFile with
  | .error err => { ParseError := some { Message := err }, Ok := false, FileName := specFile }
  | .ok content => { (env.parse content conceptDictionary).2 with FileName := specFile }

/-- The Specification slot that the task of a file sends, when the parser gives
a Specification with every successful result. -/
def taskSlot {D : Type} (env : Collaborators D) (conceptDictionary : D) (specFile : String) :
    Option Specification :=
  match env.ReadFileContents specFile with
  | .error _ => none
  | .ok content =>
    if (env.parse content conceptDictionary).2.Ok then
      (env.parse content conceptDictionary).1.map fun spec => { spec with FileName := specFile }
    else none

/-- The contract of the parser that a task relies on: a successful result comes
with a Specification. -/
def parserGivesSpec {D : Type} (env : Collaborators D) : Prop :=
  ∀ (content : String) (conceptDictionary : D),
    (env.parse content conceptDictionary).2.Ok = true →
      (env.parse content conceptDictionary).1.isSome = true

/-- The file name stamped on a Specification slot, when there is one. -/
def slotFileName (slot : Option Specification) : Option String :=
  slot.map fun spec => spec.FileName

/-- Bound on the number of actions a state can still take. -/
def DispatchState.fuel (s : DispatchState) : Nat :=
  2 * s.unsent.length + s.halfSent.length + 2 * s.pending + (if s.gotResult then 0 else 1)

/-- A collaborator pair for examples: the file `a.spec` holds `# A`, the file
`b.spec` holds `broken`, any other file cannot be read; the parser rejects the
text `broken` and accepts any other text as a heading. -/
def exampleCollaborators : Collaborators Unit where
  ReadFileContents := fun specFile =>
    if specFile = "a.spec" then .ok "# A"
    else if specFile = "b.spec" then .ok "broken"
    else .error "no such file"
  parse := fun content _ =>
    if content = "broken" then
      (none, { ParseError := some ⟨"no heading"⟩, Ok := false, FileName := "" })
    else
      (some { heading := ⟨content⟩, items := [], tags := none, FileName := "" },
        { ParseError := none, Ok := true, FileName := "" })

/-- What holds in every state of a run over `specFiles`: the results collected,
in the channel and still to be sent are together the results of the tasks; the
Specifications collected are, with the non-nil slots in the channel and still to
be sent, the non-nil slots of the tasks; the slots in the channel and still to
be sent are as many as the iterations left; and the results collected are as
many as the iterations completed or begun. -/
def DispatchState.Inv {D : Type} (env : Collaborators D) (conceptDictionary : D)
    (specFiles : List String) (s : DispatchState) : Prop :=
  (s.parseResults ++ (s.parseResultsChan ++
      (s.halfSent ++ s.unsent).map (taskResult env conceptDictionary))).Perm
    (specFiles.map (taskResult env conceptDictionary)) ∧
  (s.specs ++ (s.specsChan ++ s.unsent.map (taskSlot env conceptDictionary)).filter
      Option.isSome).Perm
    ((specFiles.map (taskSlot env conceptDictionary)).filter Option.isSome) ∧
  s.specsChan.length + s.unsent.length = s.pending ∧
  s.parseResults.length + s.pending = specFiles.length + (if s.gotResult then 1 else 0) ∧
  s.pending ≤ specFiles.length

/-! ## Slices as references

For the question whether a converted table shares storage with its source, a Go
`[]string` is a reference to a backing array; the arrays live in a heap. -/

/-- A Go `[]string` that spans its backing array, identified by the address of
that array. -/
structure StringSlice where
  array : Nat
  deriving DecidableEq, Repr

/-- The backing arrays of the string slices, by address. -/
def Heap := Nat → List String

/-- The cells a slice holds in a heap. -/
def Heap.read (heap : Heap) (slice : StringSlice) : List String := heap slice.array

/-- The assignment `slice[i] = value`: it writes into the backing array of the
slice. -/
def Heap.write (heap : Heap) (slice : StringSlice) (i : Nat) (value : String) : Heap :=
  fun address => if address = slice.array then (heap address).set i value else heap address

/-- Modelled from the spec: a table as it is held in memory: the slice of its
header row, and the slices that the method `Rows()` hands out for its data
rows. -/
structure TableRef where
  Headers : StringSlice
  rows : List StringSlice
  deriving DecidableEq, Repr

/-- Modelled from the spec: a row message as it is held in memory, the slice of
its cells. -/
structure ProtoTableRowRef where
  Cells : StringSlice
  deriving DecidableEq, Repr

/-- Modelled from the spec: a table message as it is held in memory. -/
structure ProtoTableRef where
  Headers : Option ProtoTableRowRef
  Rows : List (Option ProtoTableRowRef)
  deriving DecidableEq, Repr

/-- The table that a table in memory holds in a heap. -/
def TableRef.value (heap : Heap) (table : TableRef) : Table :=
  { Headers := heap.read table.Headers, rows := table.rows.map heap.read }

/-- The table message that a table message in memory holds in a heap. -/
def ProtoTableRef.value (heap : Heap) (table : ProtoTableRef) : ProtoTable :=
  { Headers := table.Headers.map fun row => { Cells := heap.read row.Cells },
    Rows := table.Rows.map fun row => row.map fun r => { Cells := heap.read r.Cells } }

/-- Table message of a table (`convertToProtoTableParam`), on slices as
references: `Cells: table.Headers` and `Cells: row` store the slices of the
table in the message, no cell is copied and the heap is not changed. -/
def convertToProtoTableParamRef (table : TableRef) : ProtoTableRef :=
  { Headers := some { Cells := table.Headers },
    Rows := table.rows.map fun row => some { Cells := row } }

/-! ## Arithmetic lemmas -/

/-- Wrapping a value of the 64-bit range leaves it unchanged. -/
theorem wrapInt64_of_isInt64 (x : Int) (h : isInt64 x) : wrapInt64 x = x := by
  unfold isInt64 at h
  unfold wrapInt64
  omega

/-- An integer of magnitude at most `2 ^ 24` is exactly representable as a
`float32`. -/
theorem toFloat32_of_abs_le (v : Int) (h : |v| ≤ 2 ^ 24) : toFloat32 v = v := by
  have h1 : -(2 ^ 24) ≤ v ∧ v ≤ 2 ^ 24 := abs_le.mp h
  by_cases hlt : v.natAbs < 2 ^ 24
  · unfold toFloat32
    simp only [hlt, if_true]
  · have hv : v = 2 ^ 24 ∨ v = -(2 ^ 24) := by omega
    rcases hv with hv | hv <;> subst hv <;> decide

/-! ## Success rate -/

/-- C1 (as stated, refuted): outside the range where the quotient is exactly
representable the result is not `100 * (total - failed) / total`. For
`total = 1`, `failed = -671088` the integer quotient is `67108900`, which the
conversion to `float32` rounds to `67108896`; for `total = 1`,
`failed = -92233720368547759` the product `100 * (total - failed)` overflows the
64-bit `int`. -/
theorem getSuccessRate_not_quotient :
    (isInt64 1 ∧ isInt64 (-671088) ∧
      Int.tdiv (100 * (1 - (-671088))) 1 = 67108900 ∧
      getSuccessRate 1 (-671088) = 67108896) ∧
    (isInt64 1 ∧ isInt64 (-92233720368547759) ∧
      Int.tdiv (100 * (1 - (-92233720368547759))) 1 = 9223372036854776000 ∧
      getSuccessRate 1 (-92233720368547759) = -9223372036854775808) := by
  decide

/-- C1 (amended): for Go ints `total`, `failed` such that `100 * (total - failed)`
does not overflow and the truncated quotient has magnitude at most `2 ^ 24`,
`getSuccessRate total failed` is `0` when `total = 0` and otherwise the truncated
quotient `100 * (total - failed) / total`; moreover `getSuccessRate 0 0 = 0`,
`getSuccessRate 10 0 = 100` and `getSuccessRate 10 3 = 70`. -/
theorem getSuccessRate_spec (total failed : Int)
    (_ht : isInt64 total) (_hf : isInt64 failed)
    (hmul : isInt64 (100 * (total - failed)))
    (hq : |Int.tdiv (100 * (total - failed)) total| ≤ 2 ^ 24) :
    getSuccessRate total failed
        = (if total = 0 then 0 else Int.tdiv (100 * (total - failed)) total) ∧
      getSuccessRate 0 0 = 0 ∧ getSuccessRate 10 0 = 100 ∧ getSuccessRate 10 3 = 70 := by
  refine ⟨?_, by decide, by decide, by decide⟩
  by_cases h0 : total = 0
  · simp [getSuccessRate, h0]
  · have hd : isInt64 (total - failed) := by
      unfold isInt64 at hmul ⊢
      omega
    have hq1 : -(2 ^ 24) ≤ Int.tdiv (100 * (total - failed)) total ∧
        Int.tdiv (100 * (total - failed)) total ≤ 2 ^ 24 := abs_le.mp hq
    have hq2 : isInt64 (Int.tdiv (100 * (total - failed)) total) := by
      unfold isInt64
      omega
    simp only [getSuccessRate, h0, if_false, wrapInt64_of_isInt64 _ hd,
      wrapInt64_of_isInt64 _ hmul, wrapInt64_of_isInt64 _ hq2, toFloat32_of_abs_le _ hq]

/-- Witness of `getSuccessRate_spec` at `total = 10`, `failed = 3`. -/
theorem getSuccessRate_spec_witness :
    getSuccessRate 10 3 = (if (10 : Int) = 0 then 0 else Int.tdiv (100 * (10 - 3)) 10) ∧
      getSuccessRate 0 0 = 0 ∧ getSuccessRate 10 0 = 100 ∧ getSuccessRate 10 3 = 70 :=
  getSuccessRate_spec 10 3 (by decide) (by decide) (by decide) (by decide)

/-! ## Lemmas on the item conversion -/

/-- A present tag set converts to a tags item without failure. -/
theorem convertToProtoTagItem_some (t : Tags) :
    convertToProtoTagItem (some t)
      = .ok (.mk (some .Tags) none none none none none (some { Tags := t.values })) := by
  simp [convertToProtoTagItem, convertToProtoTags, getAllTags, bind, Except.bind, pure,
    Except.pure]

mutual
/-- The loop over a list of items does not fail, and its result lists the
conversion of every item in order. -/
theorem convertItems_map (items : List Item) :
    ∃ rs, convertItems items = .ok rs ∧ items.map convertToProtoItem = rs.map .ok :=
  match items with
  | [] => ⟨[], by simp [convertItems, pure, Except.pure], by simp⟩
  | item :: rest => by
    obtain ⟨r, hr⟩ := convertToProtoItem_total item
    obtain ⟨rs, hrs, hmap⟩ := convertItems_map rest
    refine ⟨r :: rs, ?_, ?_⟩
    · simp [convertItems, hr, hrs, bind, Except.bind, pure, Except.pure]
    · simp [hr, hmap]
/-- The conversion of an item does not fail. -/
theorem convertToProtoItem_total (item : Item) : ∃ r, convertToProtoItem item = .ok r :=
  match item with
  | .scenario scenario => by
    have hp := convertToProtoScenarioItem_eq scenario
    exact ⟨some (.mk (some .Scenario) none none (some (newProtoScenario scenario))
      none none none), by
      simp only [convertToProtoItem, hp, bind, Except.bind, pure, Except.pure]⟩
  | .step step =>
    ⟨some (convertToProtoStepItem step), by simp [convertToProtoItem, pure, Except.pure]⟩
  | .comment comment =>
    ⟨some (convertToProtoCommentItem comment), by
      simp [convertToProtoItem, pure, Except.pure]⟩
  | .table table =>
    ⟨some (convertToProtoTableItem table), by simp [convertToProtoItem, pure, Except.pure]⟩
  | .tags tags =>
    ⟨some (.mk (some .Tags) none none none none none (some { Tags := tags.values })), by
      simp only [convertToProtoItem, convertToProtoTagItem_some, bind, Except.bind, pure,
        Except.pure]⟩
  | .other _ => ⟨none, by simp [convertToProtoItem, pure, Except.pure]⟩
/-- The conversion of a scenario does not fail, and its scenario message is the
fresh message of `newProtoScenario`. -/
theorem convertToProtoScenarioItem_eq (scenario : Scenario) :
    convertToProtoScenarioItem scenario
      = .ok (.mk (some .Scenario) none none (some (newProtoScenario scenario))
          none none none) :=
  match scenario with
  | .mk heading tags items => by
    obtain ⟨rs, hrs, _⟩ := convertItems_map items
    simp [convertToProtoScenarioItem, hrs, bind, Except.bind, pure, Except.pure]
end

/-! ## Items, scenarios and specifications -/

/-- C2 (evaluation at the failing input): for the scenario with heading `"login"`,
no tags and the single body item `Comment "note"`, the body converts to a
one-element list, but the Scenario message returned by
`convertToProtoScenarioItem` is the fresh message of `newProtoScenario`, whose
item list and context list are empty. -/
theorem convertToProtoScenarioItem_drops_items :
    convertItems (Scenario.mk ⟨"login"⟩ none [Item.comment ⟨"note"⟩]).items
        = .ok [some (convertToProtoCommentItem ⟨"note"⟩)] ∧
      convertToProtoScenarioItem (Scenario.mk ⟨"login"⟩ none [Item.comment ⟨"note"⟩])
        = .ok (.mk (some .Scenario) none none
            (some (.mk (some "login") (some false) [] [] [] (some 0))) none none none) := by
  constructor <;> rfl

/-- C3: `convertToProtoSpec s` succeeds with a message whose heading is
`s.heading.value`, whose file name is `s.FileName`, whose tags are the tag values
of `s` in order (none when the tag set is absent), and whose items are, entry by
entry and in order, the conversions of the items of `s`. -/
theorem convertToProtoSpec_preserves (s : Specification) :
    ∃ p, convertToProtoSpec s = .ok p ∧
      p.SpecHeading = some s.heading.value ∧
      p.FileName = some s.FileName ∧
      p.Tags = (match s.tags with
        | some t => t.values
        | none => []) ∧
      p.Items.length = s.items.length ∧
      s.items.map convertToProtoItem = p.Items.map .ok := by
  obtain ⟨rs, hrs, hmap⟩ := convertItems_map s.items
  refine ⟨{ newProtoSpec s with Items := rs }, ?_, rfl, rfl, ?_, ?_, hmap⟩
  · simp [convertToProtoSpec, hrs, bind, Except.bind, pure, Except.pure]
  · simp only [newProtoSpec, getTags]
  · have h := congrArg List.length hmap
    simpa using h.symm

/-- C4: `convertToProtoItem` dispatches on the kind of the item: a scenario, a
step, a comment, a table and a tags item yield a node of type Scenario, Step
(Concept when the step is a concept reference), Comment, Table and Tags, with no
other payload populated; an item of any other kind yields nil. -/
theorem convertToProtoItem_dispatch (item : Item) :
    match item.kind with
    | .scenarioKind => isNodeOfKind (convertToProtoItem item) .Scenario
    | .stepKind => ∃ step, item = .step step ∧
        isNodeOfKind (convertToProtoItem item) (if step.isConcept then .Concept else .Step)
    | .commentKind => isNodeOfKind (convertToProtoItem item) .Comment
    | .tableKind => isNodeOfKind (convertToProtoItem item) .Table
    | .tagKind => isNodeOfKind (convertToProtoItem item) .Tags
    | .otherKind _ => convertToProtoItem item = .ok none := by
  cases item with
  | scenario scenario =>
    refine ⟨.mk (some .Scenario) none none (some (newProtoScenario scenario))
      none none none, ?_, rfl, rfl⟩
    simp only [convertToProtoItem, convertToProtoScenarioItem_eq, bind, Except.bind, pure,
      Except.pure]
  | step step =>
    refine ⟨step, rfl, ?_⟩
    by_cases h : step.isConcept = true
    · refine ⟨convertToProtoStepItem step, rfl, ?_, ?_⟩ <;>
        · rw [convertToProtoStepItem, convertToProtoConcept]
          simp [h, ProtoItem.ItemType, ProtoItem.populated, ProtoItem.Step,
            ProtoItem.Concept, ProtoItem.Scenario, ProtoItem.Comment, ProtoItem.Table,
            ProtoItem.Tags]
    · refine ⟨convertToProtoStepItem step, rfl, ?_, ?_⟩ <;>
        · rw [convertToProtoStepItem]
          simp [h, ProtoItem.ItemType, ProtoItem.populated, ProtoItem.Step,
            ProtoItem.Concept, ProtoItem.Scenario, ProtoItem.Comment, ProtoItem.Table,
            ProtoItem.Tags]
  | comment comment => exact ⟨convertToProtoCommentItem comment, rfl, rfl, rfl⟩
  | table table => exact ⟨convertToProtoTableItem table, rfl, rfl, rfl⟩
  | tags tags =>
    refine ⟨.mk (some .Tags) none none none none none (some { Tags := tags.values }),
      ?_, rfl, rfl⟩
    simp only [convertToProtoItem, convertToProtoTagItem_some, bind, Except.bind, pure,
      Except.pure]
  | other n => rfl

/-! ## Concept steps -/

/-- The loop of `convertToProtoStepItems` lists the item message of every step,
in order. -/
theorem convertToProtoStepItems_map (steps : List Step) :
    convertToProtoStepItems steps = steps.map fun step => some (convertToProtoStepItem step) := by
  induction steps with
  | nil => rw [convertToProtoStepItems]; rfl
  | cons step rest ih => rw [convertToProtoStepItems, ih]; rfl

/-- The discriminator of the item message of a step is Concept for a concept
reference and Step otherwise. -/
theorem convertToProtoStepItem_type (step : Step) :
    (convertToProtoStepItem step).ItemType
      = some (if step.isConcept then .Concept else .Step) := by
  rw [convertToProtoStepItem]
  by_cases h : step.isConcept = true
  · rw [convertToProtoConcept]
    simp [h, ProtoItem.ItemType]
  · simp [h, ProtoItem.ItemType]

/-- The concept payload of the item message of a step. -/
theorem convertToProtoStepItem_payload (step : Step) :
    (convertToProtoStepItem step).Concept
      = if step.isConcept then
          some (.mk (some (convertToProtoStep step))
            (step.conceptSteps.map fun nested => some (convertToProtoStepItem nested)))
        else none := by
  rw [convertToProtoStepItem]
  by_cases h : step.isConcept = true
  · rw [convertToProtoConcept, convertToProtoStepItems_map]
    simp [h, ProtoItem.Concept]
  · simp [h, ProtoItem.Concept]

/-- Walking a path of nested-step indices in the item message of a step reaches
the item message of the step that the same path reaches in the step. -/
theorem convertToProtoStepItem_nestedAt (path : List Nat) (step : Step) :
    (convertToProtoStepItem step).nestedAt path
      = (step.nestedAt path).map convertToProtoStepItem := by
  induction path generalizing step with
  | nil => rfl
  | cons i rest ih =>
    simp only [ProtoItem.nestedAt, Step.nestedAt, convertToProtoStepItem_payload]
    by_cases h : step.isConcept = true
    · simp only [h, if_true, ProtoConcept.Steps, List.getElem?_map]
      cases hi : step.conceptSteps[i]? with
      | none => rfl
      | some nested => simpa using ih nested
    · simp [h]

/-- C5: for a step `c` with `isConcept` set, `convertToProtoStepItem c` is a
Concept message whose `ConceptStep` is `convertToProtoStep c` and whose `Steps`
list has one entry per nested step, the `i`-th being `convertToProtoStepItem` of
the `i`-th nested step. Every step converts to a Concept message when it is a
concept reference and to a Step message otherwise, and the step reached by any
path of nested-step indices is represented, at the same path in the message, by
its own conversion: the nesting is kept at every depth. -/
theorem convertToProtoStepItem_concept (c : Step) (h : c.isConcept = true) :
    convertToProtoStepItem c
        = .mk (some .Concept) none
            (some (.mk (some (convertToProtoStep c))
              (c.conceptSteps.map fun nested => some (convertToProtoStepItem nested))))
            none none none none ∧
      (c.conceptSteps.map fun nested => some (convertToProtoStepItem nested)).length
        = c.conceptSteps.length ∧
      (∀ step : Step, (convertToProtoStepItem step).ItemType
        = some (if step.isConcept then .Concept else .Step)) ∧
      (∀ path : List Nat, (convertToProtoStepItem c).nestedAt path
        = (c.nestedAt path).map convertToProtoStepItem) := by
  refine ⟨?_, by simp, convertToProtoStepItem_type, fun path =>
    convertToProtoStepItem_nestedAt path c⟩
  rw [convertToProtoStepItem, convertToProtoConcept, convertToProtoStepItems_map]
  simp [h]

/-- Witness of `convertToProtoStepItem_concept`: the concept reference `c` with
raw text `"* login"`, value `"login"`, no fragments and one nested plain step. -/
theorem convertToProtoStepItem_concept_witness :
    (Step.mk "* login" "login" true [] [Step.mk "* open" "open" false [] []]).isConcept
        = true ∧
      (convertToProtoStepItem
          (Step.mk "* login" "login" true [] [Step.mk "* open" "open" false [] []])).nestedAt [0]
        = (Option.some (Step.mk "* open" "open" false [] [])).map convertToProtoStepItem :=
  ⟨rfl, (convertToProtoStepItem_concept
    (Step.mk "* login" "login" true [] [Step.mk "* open" "open" false [] []]) rfl).2.2.2 [0]⟩

/-! ## Parameters and tables -/

/-- C6: `convertToProtoParameter` converts a step argument by kind: Static,
Dynamic, TableArg, SpecialString, SpecialTable become parameters of type Static,
Dynamic, Table, Special_String, Special_Table; the name is the argument's name;
the scalar kinds carry the argument's value and no table, the table kinds carry
the conversion of the argument's table and no value; any other kind gives nil. -/
theorem convertToProtoParameter_by_kind (a : StepArg) :
    match a.ArgType with
    | .Static => convertToProtoParameter a
        = some ⟨some .Static, some a.Value, some a.Name, none⟩
    | .Dynamic => convertToProtoParameter a
        = some ⟨some .Dynamic, some a.Value, some a.Name, none⟩
    | .TableArg => convertToProtoParameter a
        = some ⟨some .Table, none, some a.Name, some (convertToProtoTableParam a.Table)⟩
    | .SpecialString => convertToProtoParameter a
        = some ⟨some .Special_String, some a.Value, some a.Name, none⟩
    | .SpecialTable => convertToProtoParameter a
        = some ⟨some .Special_Table, none, some a.Name,
            some (convertToProtoTableParam a.Table)⟩
    | .other _ => convertToProtoParameter a = none := by
  unfold convertToProtoParameter
  cases a.ArgType <;> rfl

/-- C7: the converted table has the header cells of the table in order and, row
by row and cell by cell, the rows of `t.Rows()`; the number of rows is unchanged,
no row message is nil, and the grid shape is kept: every converted row is as long
as the converted header row exactly when every row of the table is as long as its
header row. -/
theorem convertToProtoTableParam_preserves (t : Table) :
    GetCells (convertToProtoTableParam t).Headers = t.Headers ∧
      (convertToProtoTableParam t).Rows.map GetCells = t.Rows ∧
      (convertToProtoTableParam t).Rows.length = t.Rows.length ∧
      (convertToProtoTableParam t).Rows.all (fun row => row.isSome) = true ∧
      (convertToProtoTableParam t).Rows.all (fun row => decide
          ((GetCells row).length = (GetCells (convertToProtoTableParam t).Headers).length))
        = t.Rows.all (fun row => decide (row.length = t.Headers.length)) := by
  refine ⟨rfl, ?_, ?_, ?_, ?_⟩
  · simp [convertToProtoTableParam, GetCells, Function.comp_def]
  · simp [convertToProtoTableParam]
  · simp [convertToProtoTableParam]
  · have hrows : ∀ rows : List (List String),
        ((rows.map fun row => some (ProtoTableRow.mk row)).all fun row =>
          decide ((GetCells row).length = t.Headers.length))
        = rows.all fun row => decide (row.length = t.Headers.length) := by
      intro rows
      induction rows with
      | nil => rfl
      | cons row rest ih =>
        rw [List.map_cons, List.all_cons, List.all_cons, ih]
        rfl
    exact hrows t.Rows

/-! ## Tags -/

/-- C8: `getTags` returns the empty list for an absent tag set and exactly the
tag strings of a present tag set, in their order. -/
theorem getTags_spec :
    getTags none = [] ∧ ∀ t : Tags, getTags (some t) = t.values :=
  ⟨rfl, fun _ => rfl⟩

/-- C9 (evaluation at the failing input): for an absent (nil) tag collection
`getAllTags` dereferences the nil pointer, so `convertToProtoTags` and
`convertToProtoTagItem` fail instead of yielding an empty list, whereas the
sibling `getTags` returns the empty list; for a present collection the
conversion yields its values in order. -/
theorem convertToProtoTags_nil_fails :
    getAllTags none = .error .nilDereference ∧
      convertToProtoTags none = .error .nilDereference ∧
      convertToProtoTagItem none = .error .nilDereference ∧
      getTags none = [] ∧
      convertToProtoTags (some ⟨["smoke", "fast"]⟩) = .ok ⟨["smoke", "fast"]⟩ :=
  ⟨rfl, rfl, rfl, rfl, rfl⟩

/-! ## Suite results -/

/-- C10: the success rate of the suite-result message is
`getSuccessRate (number of spec results) SpecsFailedCount`, so two suite results
with equally many spec results and the same failed count get the same rate; the
spec-result list keeps length and order (entry by entry the embedded spec
message, failed flag, failed rows and execution time of the source entry); the
failed flag, execution time, environment, tag filter, project name and timestamp
are copied. -/
theorem convertToProtoSuiteResult_spec (r : SuiteResult) :
    (convertToProtoSuiteResult r).SuccessRate
        = some (getSuccessRate r.SpecResults.length r.SpecsFailedCount) ∧
      (∀ r2 : SuiteResult, r2.SpecResults.length = r.SpecResults.length →
        r2.SpecsFailedCount = r.SpecsFailedCount →
        (convertToProtoSuiteResult r2).SuccessRate = (convertToProtoSuiteResult r).SuccessRate) ∧
      (convertToProtoSuiteResult r).SpecResults.length = r.SpecResults.length ∧
      (convertToProtoSuiteResult r).SpecResults.map (fun m => m.ProtoSpec)
        = r.SpecResults.map (fun s => s.ProtoSpec) ∧
      (convertToProtoSuiteResult r).SpecResults.map (fun m => m.Failed)
        = r.SpecResults.map (fun s => some s.IsFailed) ∧
      (convertToProtoSuiteResult r).SpecResults.map (fun m => m.FailedDataTableRows)
        = r.SpecResults.map (fun s => s.FailedDataTableRows) ∧
      (convertToProtoSuiteResult r).SpecResults.map (fun m => m.ExecutionTime)
        = r.SpecResults.map (fun s => some s.ExecutionTime) ∧
      (convertToProtoSuiteResult r).Failed = some r.IsFailed ∧
      (convertToProtoSuiteResult r).ExecutionTime = some r.ExecutionTime ∧
      (convertToProtoSuiteResult r).Environment = some r.Environment ∧
      (convertToProtoSuiteResult r).Tags = some r.Tags ∧
      (convertToProtoSuiteResult r).ProjectName = some r.ProjectName ∧
      (convertToProtoSuiteResult r).Timestamp = some r.Timestamp := by
  refine ⟨rfl, ?_, ?_, ?_, ?_, ?_, ?_, rfl, rfl, rfl, rfl, rfl, rfl⟩
  · intro r2 hlen hfail
    simp only [convertToProtoSuiteResult, hlen, hfail]
  all_goals simp [convertToProtoSuiteResult, convertToProtoSpecResult, Function.comp_def]

/-! ## Suite-level counts -/

/-- C11 (as stated, refuted): for the suite result with one spec result whose
failed flag is set and the stored count `SpecsFailedCount = 0`, the failed-spec
count of the message is `0`, while one entry of `SpecResults` is failed. -/
theorem convertToProtoSuiteResult_count_not_recomputed :
    (convertToProtoSuiteResult
        { PreSuite := none, PostSuite := none, IsFailed := true, SpecsFailedCount := 0,
          ExecutionTime := 0,
          SpecResults := [{ ProtoSpec := none, ScenarioCount := 1, ScenarioFailedCount := 1,
                            IsFailed := true, FailedDataTableRows := [],
                            ExecutionTime := 0 }],
          Environment := "", Tags := "", ProjectName := "", Timestamp := "" }).SpecsFailedCount
        = some 0 ∧
      ([({ ProtoSpec := none, ScenarioCount := 1, ScenarioFailedCount := 1, IsFailed := true,
           FailedDataTableRows := [], ExecutionTime := 0 } : SpecResult)].filter
        fun s => s.IsFailed).length = 1 := by
  constructor
  · decide
  · rfl

/-- C11 (amended): for every suite result `r`, the total of the suite is the
number of entries of `r.SpecResults` (the length of the message list and the
first argument of the success rate), and the failed-spec count of the message is
the stored `r.SpecsFailedCount` converted to `int32`: it is not a recount, two
suite results with the same stored count get the same failed-spec count whatever
their entries are. Hence, when the stored count is the number of entries whose
failed flag is set and fits `int32`, the failed-spec count of the message is that
number. -/
theorem convertToProtoSuiteResult_counts (r : SuiteResult) :
    (convertToProtoSuiteResult r).SpecResults.length = r.SpecResults.length ∧
      (convertToProtoSuiteResult r).SuccessRate
        = some (getSuccessRate r.SpecResults.length r.SpecsFailedCount) ∧
      (convertToProtoSuiteResult r).SpecsFailedCount = some (wrapInt32 r.SpecsFailedCount) ∧
      (∀ r2 : SuiteResult, r2.SpecsFailedCount = r.SpecsFailedCount →
        (convertToProtoSuiteResult r2).SpecsFailedCount
          = (convertToProtoSuiteResult r).SpecsFailedCount) ∧
      (r.SpecsFailedCount = ((r.SpecResults.filter fun s => s.IsFailed).length : Int) →
        r.SpecsFailedCount < 2 ^ 31 →
        (convertToProtoSuiteResult r).SpecsFailedCount
          = some ((r.SpecResults.filter fun s => s.IsFailed).length : Int)) := by
  refine ⟨?_, rfl, rfl, ?_, ?_⟩
  · simp [convertToProtoSuiteResult, convertToProtoSpecResult]
  · intro r2 hsame
    show some (wrapInt32 r2.SpecsFailedCount) = some (wrapInt32 r.SpecsFailedCount)
    rw [hsame]
  · intro hstored hfit
    have hwrap : wrapInt32 r.SpecsFailedCount = r.SpecsFailedCount := by
      have h0 : (0 : Int) ≤ r.SpecsFailedCount := by
        rw [hstored]
        exact Int.ofNat_nonneg _
      unfold wrapInt32
      omega
    show some (wrapInt32 r.SpecsFailedCount) = _
    rw [hwrap, hstored]

/-- Witness of `convertToProtoSuiteResult_counts`: a suite with one passed and
one failed spec result and the stored count `1`. -/
theorem convertToProtoSuiteResult_counts_witness :
    (convertToProtoSuiteResult
        { PreSuite := none, PostSuite := none, IsFailed := true, SpecsFailedCount := 1,
          ExecutionTime := 7,
          SpecResults := [{ ProtoSpec := none, ScenarioCount := 1, ScenarioFailedCount := 0,
                            IsFailed := false, FailedDataTableRows := [],
                            ExecutionTime := 3 },
                          { ProtoSpec := none, ScenarioCount := 1, ScenarioFailedCount := 1,
                            IsFailed := true, FailedDataTableRows := [],
                            ExecutionTime := 4 }],
          Environment := "", Tags := "", ProjectName := "", Timestamp := "" }).SpecsFailedCount
      = some 1 :=
  (convertToProtoSuiteResult_counts _).2.2.2.2 rfl (by decide)

/-! ## Steps and fragments -/

/-- C16: the step message of a step has the raw line text as `ActualText`, the
normalized value as `ParsedText`, and a fragment list with one entry per source
fragment, in order, the `i`-th a (non-nil) copy of the `i`-th source fragment. -/
theorem convertToProtoStep_spec (s : Step) :
    (convertToProtoStep s).ActualText = some s.lineText ∧
      (convertToProtoStep s).ParsedText = some s.value ∧
      (convertToProtoStep s).Fragments.length = s.fragments.length ∧
      (convertToProtoStep s).Fragments
        = s.fragments.map fun fragment => some (makeFragmentCopy fragment) := by
  refine ⟨rfl, rfl, ?_, rfl⟩
  simp [convertToProtoStep, makeFragmentsCopy]

/-- Copying the copy of a row message gives the same row message. -/
theorem makeProtoTableRowCopy_idem (tableRow : Option ProtoTableRow) :
    makeProtoTableRowCopy (some (makeProtoTableRowCopy tableRow))
      = makeProtoTableRowCopy tableRow := by
  simp [makeProtoTableRowCopy, GetCells]

/-- Copying the copy of a table message gives the same table message. -/
theorem makeTableCopy_idem (table : Option ProtoTable) :
    makeTableCopy (some (makeTableCopy table)) = makeTableCopy table := by
  simp [makeTableCopy, GetHeaders, GetRows, makeProtoTableRowCopy_idem, Function.comp_def]

/-- The cells read from the copy of a table message are those of the table
message. -/
theorem tableCells_makeTableCopy (table : Option ProtoTable) :
    tableCells (some (makeTableCopy table)) = tableCells table := by
  simp [tableCells, makeTableCopy, GetHeaders, GetRows, makeProtoTableRowCopy, GetCells,
    Function.comp_def]

/-- Copying the copy of a parameter message gives the same parameter message. -/
theorem makeParameterCopy_idem (parameter : Option Parameter) :
    makeParameterCopy (makeParameterCopy parameter) = makeParameterCopy parameter := by
  have e : makeParameterCopy parameter = makeParameterCopy parameter := rfl
  cases h : GetParameterType parameter <;>
    · conv at e =>
        rhs
        simp only [makeParameterCopy, h]
      rw [e]
      first
        | exact e
        | simp [makeParameterCopy, GetParameterType, GetValue, GetName, GetTable,
            makeTableCopy_idem]

/-- The copy of a fragment that reads as Text. -/
theorem makeFragmentCopy_text (fragment : Option Fragment)
    (h : GetFragmentType fragment = Fragment_FragmentType.Text) :
    makeFragmentCopy fragment
      = { FragmentType := some .Text, Text := some (GetText fragment), Parameter := none } := by
  unfold makeFragmentCopy
  rw [if_pos h]

/-- The copy of a fragment that does not read as Text. -/
theorem makeFragmentCopy_parameter (fragment : Option Fragment)
    (h : GetFragmentType fragment ≠ Fragment_FragmentType.Text) :
    makeFragmentCopy fragment
      = { FragmentType := some .Parameter, Text := none,
          Parameter := makeParameterCopy (fragmentParameter fragment) } := by
  unfold makeFragmentCopy
  rw [if_neg h]
  rfl

/-- Copying the copy of a fragment gives the same fragment. -/
theorem makeFragmentCopy_idem (fragment : Option Fragment) :
    makeFragmentCopy (some (makeFragmentCopy fragment)) = makeFragmentCopy fragment := by
  by_cases h : GetFragmentType fragment = Fragment_FragmentType.Text
  · rw [makeFragmentCopy_text fragment h]
    rfl
  · rw [makeFragmentCopy_parameter fragment h]
    have hp : ∀ parameter : Option Parameter,
        makeFragmentCopy (some ⟨some .Parameter, none, parameter⟩)
          = ⟨some .Parameter, none, makeParameterCopy parameter⟩ := fun _ => rfl
    rw [hp, makeParameterCopy_idem]

/-- The copy of a well-formed fragment reads, through the getters, as the
fragment does. -/
theorem sameFragmentValue_makeFragmentCopy (fragment : Option Fragment)
    (h : wellFormedFragment fragment = true) :
    sameFragmentValue fragment (some (makeFragmentCopy fragment)) := by
  unfold wellFormedFragment at h
  cases ht : GetFragmentType fragment with
  | Text =>
    rw [makeFragmentCopy_text fragment ht]
    refine ⟨ht, fun _ => rfl, fun hp => ?_⟩
    rw [ht] at hp
    cases hp
  | Parameter =>
    rw [ht] at h
    have hne : GetFragmentType fragment ≠ Fragment_FragmentType.Text := by
      rw [ht]
      decide
    rw [makeFragmentCopy_parameter fragment hne]
    refine ⟨ht, fun hp => ?_, fun _ => ?_⟩
    · rw [ht] at hp
      cases hp
    · show GetParameterType (fragmentParameter fragment)
          = GetParameterType (makeParameterCopy (fragmentParameter fragment)) ∧
        GetName (fragmentParameter fragment)
          = GetName (makeParameterCopy (fragmentParameter fragment)) ∧
        (isScalarKind (GetParameterType (fragmentParameter fragment)) = true →
          GetValue (fragmentParameter fragment)
            = GetValue (makeParameterCopy (fragmentParameter fragment))) ∧
        (isTableKind (GetParameterType (fragmentParameter fragment)) = true →
          tableCells (GetTable (fragmentParameter fragment))
            = tableCells (GetTable (makeParameterCopy (fragmentParameter fragment))))
      generalize fragmentParameter fragment = parameter at h
      have e : makeParameterCopy parameter = makeParameterCopy parameter := rfl
      cases hk : GetParameterType parameter
      case unrecognized n =>
        rw [hk] at h
        simp [isDeclaredKind] at h
      all_goals
        conv at e =>
          rhs
          simp only [makeParameterCopy, hk]
        rw [e]
        refine ⟨rfl, rfl, fun hc => ?_, fun hc => ?_⟩ <;>
          first
            | rfl
            | exact (tableCells_makeTableCopy (GetTable parameter)).symm
            | cases hc
  | unrecognized n =>
    rw [ht] at h
    cases h

/-- C17: on a fragment list in which every fragment is a Text fragment or a
Parameter fragment whose parameter has one of the five declared kinds,
`makeFragmentsCopy` keeps the length and, position by position, the fragment
type, the text of a Text fragment, and the kind, name, value (scalar kinds) or
table cells (table kinds) of the parameter; copying the copy gives the same
list. -/
theorem makeFragmentsCopy_preserves (fragments : List (Option Fragment))
    (h : fragments.all wellFormedFragment = true) :
    (makeFragmentsCopy fragments).length = fragments.length ∧
      List.Forall₂ sameFragmentValue fragments (makeFragmentsCopy fragments) ∧
      makeFragmentsCopy (makeFragmentsCopy fragments) = makeFragmentsCopy fragments := by
  refine ⟨by simp [makeFragmentsCopy], ?_, ?_⟩
  · induction fragments with
    | nil => exact List.Forall₂.nil
    | cons fragment rest ih =>
      rw [List.all_cons, Bool.and_eq_true] at h
      exact List.Forall₂.cons (sameFragmentValue_makeFragmentCopy fragment h.1) (ih h.2)
  · simp [makeFragmentsCopy, makeFragmentCopy_idem, Function.comp_def]

/-- Witness of `makeFragmentsCopy_preserves`: the fragments of the step
`login as <user> with <table>`: a text, a dynamic parameter, a text with no text
set, and a table parameter with a nil row. -/
theorem makeFragmentsCopy_preserves_witness :
    makeFragmentsCopy (makeFragmentsCopy
        [some ⟨some .Text, some "login as ", none⟩,
         some ⟨some .Parameter, none, some ⟨some .Dynamic, some "user", some "user", none⟩⟩,
         some ⟨none, none, none⟩,
         some ⟨some .Parameter, none,
           some ⟨some .Table, none, some "table", some ⟨some ⟨["id"]⟩, [some ⟨["1"]⟩, none]⟩⟩⟩])
      = makeFragmentsCopy
        [some ⟨some .Text, some "login as ", none⟩,
         some ⟨some .Parameter, none, some ⟨some .Dynamic, some "user", some "user", none⟩⟩,
         some ⟨none, none, none⟩,
         some ⟨some .Parameter, none,
           some ⟨some .Table, none, some "table", some ⟨some ⟨["id"]⟩, [some ⟨["1"]⟩, none]⟩⟩⟩] :=
  (makeFragmentsCopy_preserves _ (by decide)).2.2

/-! ## Truncation of the success rate -/

/-- Where nothing overflows and the quotient is exactly representable,
`getSuccessRate` is the truncated quotient. -/
theorem getSuccessRate_of_fits (total failed : Int) (h0 : total ≠ 0)
    (hmul : isInt64 (100 * (total - failed)))
    (hq : |Int.tdiv (100 * (total - failed)) total| ≤ 2 ^ 24) :
    getSuccessRate total failed = Int.tdiv (100 * (total - failed)) total := by
  have hd : isInt64 (total - failed) := by
    unfold isInt64 at hmul ⊢
    omega
  have hq1 : -(2 ^ 24) ≤ Int.tdiv (100 * (total - failed)) total ∧
      Int.tdiv (100 * (total - failed)) total ≤ 2 ^ 24 := abs_le.mp hq
  have hq2 : isInt64 (Int.tdiv (100 * (total - failed)) total) := by
    unfold isInt64
    omega
  simp only [getSuccessRate, h0, if_false, wrapInt64_of_isInt64 _ hd,
    wrapInt64_of_isInt64 _ hmul, wrapInt64_of_isInt64 _ hq2, toFloat32_of_abs_le _ hq]

/-- For a failed count between `0` and a positive total that is small enough for
`100 * total` not to overflow, `getSuccessRate` is the floor quotient, which lies
between `0` and `100`. -/
theorem getSuccessRate_of_counts (total failed : Int) (hpos : 0 < total)
    (hmax : total ≤ 92233720368547758) (h0 : 0 ≤ failed) (hle : failed ≤ total) :
    getSuccessRate total failed = 100 * (total - failed) / total ∧
      0 ≤ 100 * (total - failed) / total ∧ 100 * (total - failed) / total ≤ 100 := by
  have hn : 0 ≤ 100 * (total - failed) := by omega
  have hdiv : Int.tdiv (100 * (total - failed)) total = 100 * (total - failed) / total :=
    Int.tdiv_eq_ediv hn hpos.le
  have hlo : 0 ≤ 100 * (total - failed) / total := Int.ediv_nonneg hn hpos.le
  have hhi : 100 * (total - failed) / total ≤ 100 := by
    have h1 : 100 * (total - failed) / total ≤ 100 * total / total :=
      Int.ediv_le_ediv hpos (by omega)
    rwa [Int.mul_ediv_cancel _ hpos.ne.symm] at h1
  refine ⟨?_, hlo, hhi⟩
  rw [← hdiv]
  apply getSuccessRate_of_fits total failed hpos.ne.symm
  · unfold isInt64
    omega
  · rw [hdiv, abs_le]
    constructor <;> omega

/-- C18 (as stated, refuted): for `total = 2 ^ 62` and `failed = 0` the product
`100 * (total - failed)` overflows the 64-bit `int` and wraps to `0`, so the
result is `0` and not `100`. -/
theorem getSuccessRate_overflow :
    (0 : Int) < 4611686018427387904 ∧ isInt64 4611686018427387904 ∧
      getSuccessRate 4611686018427387904 0 = 0 ∧
      100 * (4611686018427387904 - 0) / 4611686018427387904 = (100 : Int) := by
  decide

/-- C18 (amended): for `0 < total ≤ 92233720368547758` (so that `100 * total`
fits the 64-bit `int`) and `0 ≤ failed ≤ total`, `getSuccessRate total failed`
is the whole number `floor (100 * (total - failed) / total)`, lies between `0`
and `100`, is `100` exactly when `failed = 0`, and differs from the exact
percentage when `total` does not divide `100 * (total - failed)`; and
`getSuccessRate 3 1 = 66`. -/
theorem getSuccessRate_truncates (total failed : Int) (hpos : 0 < total)
    (hmax : total ≤ 92233720368547758) (h0 : 0 ≤ failed) (hle : failed ≤ total) :
    getSuccessRate total failed
        = ⌊((100 * (total - failed) : Int) : ℚ) / ((total : Int) : ℚ)⌋ ∧
      0 ≤ getSuccessRate total failed ∧ getSuccessRate total failed ≤ 100 ∧
      (getSuccessRate total failed = 100 ↔ failed = 0) ∧
      (¬ total ∣ 100 * (total - failed) →
        ((getSuccessRate total failed : Int) : ℚ)
          ≠ ((100 * (total - failed) : Int) : ℚ) / ((total : Int) : ℚ)) ∧
      getSuccessRate 3 1 = 66 := by
  obtain ⟨heq, hlo, hhi⟩ := getSuccessRate_of_counts total failed hpos hmax h0 hle
  have hfloor : ⌊((100 * (total - failed) : Int) : ℚ) / ((total : Int) : ℚ)⌋
      = 100 * (total - failed) / total := by
    lift total to ℕ using hpos.le with d
    exact Rat.floor_intCast_div_natCast _ d
  refine ⟨by rw [heq, hfloor], by rw [heq]; exact hlo, by rw [heq]; exact hhi, ?_, ?_,
    by decide⟩
  · rw [heq]
    constructor
    · intro h100
      by_contra hne
      have hlt : 100 * (total - failed) / total < 100 :=
        Int.ediv_lt_of_lt_mul hpos (by omega)
      omega
    · intro hz
      subst hz
      rw [sub_zero]
      exact Int.mul_ediv_cancel _ hpos.ne.symm
  · intro hnd hexact
    apply hnd
    have hq : ((total : Int) : ℚ) ≠ 0 := by exact_mod_cast hpos.ne.symm
    rw [eq_div_iff hq] at hexact
    have hz : getSuccessRate total failed * total = 100 * (total - failed) := by
      exact_mod_cast hexact
    exact ⟨getSuccessRate total failed, by rw [← hz, mul_comm]⟩

/-- Witness of `getSuccessRate_truncates` at `total = 3`, `failed = 1`. -/
theorem getSuccessRate_truncates_witness :
    getSuccessRate 3 1 = ⌊((100 * (3 - 1) : Int) : ℚ) / ((3 : Int) : ℚ)⌋ ∧
      getSuccessRate 3 1 = 66 :=
  ⟨(getSuccessRate_truncates 3 1 (by decide) (by decide) (by decide) (by decide)).1,
    by decide⟩

/-! ## Execution results -/

/-- C19: `addExecutionResult` returns the item unchanged when the result is
absent; when the result is present and the item carries a step payload, the
updated item has that result as the `StepExecutionResult` of its step and is
equal to the original in every other field of the item and of the step; when the
result is present and the item carries no step payload, as for the item of a
concept reference, the operation fails with a nil dereference. -/
theorem addExecutionResult_spec (item : ProtoItem) :
    addExecutionResult item none = .ok item ∧
      (∀ result : ProtoStepExecutionResult,
        match item.Step with
        | some step =>
          ∃ item2 step2, addExecutionResult item (some result) = .ok item2 ∧
            item2.Step = some step2 ∧
            step2.StepExecutionResult = some result ∧
            step2.ActualText = step.ActualText ∧
            step2.ParsedText = step.ParsedText ∧
            step2.Fragments = step.Fragments ∧
            item2.ItemType = item.ItemType ∧
            item2.Concept = item.Concept ∧
            item2.Scenario = item.Scenario ∧
            item2.Comment = item.Comment ∧
            item2.Table = item.Table ∧
            item2.Tags = item.Tags
        | none => addExecutionResult item (some result) = .error .nilDereference) ∧
      (∀ (c : Step) (result : ProtoStepExecutionResult),
        addExecutionResult (convertToProtoStepItem c) (some result)
          = if c.isConcept then .error .nilDereference
            else .ok (.mk (some .Step)
              (some { convertToProtoStep c with StepExecutionResult := some result })
              none none none none none)) := by
  refine ⟨rfl, ?_, ?_⟩
  · intro result
    cases item with
    | mk itemType step concept scenario comment table tags =>
      cases step with
      | none => rfl
      | some step => exact ⟨_, _, rfl, rfl, rfl, rfl, rfl, rfl, rfl, rfl, rfl, rfl, rfl, rfl⟩
  · intro c result
    rw [convertToProtoStepItem]
    by_cases h : c.isConcept = true
    · rw [convertToProtoConcept]
      simp [h, addExecutionResult]
    · simp [h, addExecutionResult]

/-! ## A single parse task -/

/-- Under the parser contract a task sends its slot and its result. -/
theorem parseSpec_eq {D : Type} (env : Collaborators D) (hparse : parserGivesSpec env)
    (specFile : String) (conceptDictionary : D)
    (specChannel : List (Option Specification)) (parseResultChan : List ParseResult) :
    parseSpec env specFile conceptDictionary specChannel parseResultChan
      = .ok (specChannel ++ [taskSlot env conceptDictionary specFile],
          parseResultChan ++ [taskResult env conceptDictionary specFile]) := by
  unfold parseSpec taskSlot taskResult
  cases hread : env.ReadFileContents specFile with
  | error err => rfl
  | ok content =>
    simp only []
    cases hok : (env.parse content conceptDictionary).2.Ok with
    | false => simp
    | true =>
      have hsome := hparse content conceptDictionary hok
      cases hspec : (env.parse content conceptDictionary).1 with
      | none => rw [hspec] at hsome; cases hsome
      | some spec => simp

/-- The first send of a task, when it can be taken. -/
theorem step_sendSpec {D : Type} (env : Collaborators D) (hparse : parserGivesSpec env)
    (conceptDictionary : D) (cap : Nat) (s next : DispatchState) (specFile : String)
    (h : s.step env conceptDictionary cap (.sendSpec specFile) = some next) :
    specFile ∈ s.unsent ∧ s.specsChan.length < cap ∧
      next = { s with unsent := s.unsent.erase specFile, halfSent := specFile :: s.halfSent,
                      specsChan := s.specsChan ++ [taskSlot env conceptDictionary specFile] } := by
  simp only [DispatchState.step, parseSpec_eq env hparse] at h
  split at h
  · rename_i hguard
    exact ⟨hguard.1, hguard.2, (Option.some.inj h).symm⟩
  · cases h

/-- The second send of a task, when it can be taken. -/
theorem step_sendResult {D : Type} (env : Collaborators D) (hparse : parserGivesSpec env)
    (conceptDictionary : D) (cap : Nat) (s next : DispatchState) (specFile : String)
    (h : s.step env conceptDictionary cap (.sendResult specFile) = some next) :
    specFile ∈ s.halfSent ∧ s.parseResultsChan.length < cap ∧
      next = { s with halfSent := s.halfSent.erase specFile,
                      parseResultsChan :=
                        s.parseResultsChan ++ [taskResult env conceptDictionary specFile] } := by
  simp only [DispatchState.step, parseSpec_eq env hparse] at h
  split at h
  · rename_i hguard
    exact ⟨hguard.1, hguard.2, (Option.some.inj h).symm⟩
  · cases h

/-- The first receive of an iteration, when it can be taken. -/
theorem step_recvResult {D : Type} (env : Collaborators D) (conceptDictionary : D) (cap : Nat)
    (s next : DispatchState)
    (h : s.step env conceptDictionary cap .recvResult = some next) :
    s.gotResult = false ∧ 0 < s.pending ∧ ∃ parseResult rest,
      s.parseResultsChan = parseResult :: rest ∧
      next = { s with parseResultsChan := rest,
                      parseResults := s.parseResults ++ [parseResult], gotResult := true } := by
  simp only [DispatchState.step] at h
  split at h
  · rename_i hguard
    split at h
    · rename_i parseResult rest hchan
      exact ⟨hguard.1, hguard.2, parseResult, rest, hchan, (Option.some.inj h).symm⟩
    · cases h
  · cases h

/-- The second receive of an iteration, when it can be taken. -/
theorem step_recvSpec {D : Type} (env : Collaborators D) (conceptDictionary : D) (cap : Nat)
    (s next : DispatchState)
    (h : s.step env conceptDictionary cap .recvSpec = some next) :
    s.gotResult = true ∧ 0 < s.pending ∧ ∃ spec rest,
      s.specsChan = spec :: rest ∧
      next = { s with specsChan := rest,
                      specs := if spec.isSome then s.specs ++ [spec] else s.specs,
                      pending := s.pending - 1, gotResult := false } := by
  simp only [DispatchState.step] at h
  split at h
  · rename_i hguard
    split at h
    · rename_i spec rest hchan
      exact ⟨hguard.1, hguard.2, spec, rest, hchan, (Option.some.inj h).symm⟩
    · cases h
  · cases h

/-! ## Invariant of the dispatcher -/

/-- The invariant holds when the collecting loop is entered. -/
theorem Inv_init {D : Type} (env : Collaborators D) (conceptDictionary : D)
    (specFiles : List String) :
    (DispatchState.init specFiles).Inv env conceptDictionary specFiles := by
  refine ⟨?_, ?_, ?_, ?_, ?_⟩ <;> simp [DispatchState.init]

/-- Every action keeps the invariant. -/
theorem Inv_step {D : Type} (env : Collaborators D) (hparse : parserGivesSpec env)
    (conceptDictionary : D) (specFiles : List String) (cap : Nat) (s next : DispatchState)
    (action : Action) (hinv : s.Inv env conceptDictionary specFiles)
    (h : s.step env conceptDictionary cap action = some next) :
    next.Inv env conceptDictionary specFiles := by
  obtain ⟨h1, h2, h3, h4, h5⟩ := hinv
  cases action with
  | sendSpec specFile =>
    obtain ⟨hmem, _, rfl⟩ := step_sendSpec env hparse conceptDictionary cap s next specFile h
    have hperm : (specFile :: s.unsent.erase specFile).Perm s.unsent :=
      (List.perm_cons_erase hmem).symm
    have hlen : (s.unsent.erase specFile).length + 1 = s.unsent.length := by
      have := hperm.length_eq
      simpa using this
    refine ⟨?_, ?_, ?_, h4, h5⟩
    · refine List.Perm.trans ?_ h1
      refine List.Perm.append_left _ (List.Perm.append_left _ (List.Perm.map _ ?_))
      have hmid := List.perm_middle.symm.trans (List.Perm.append_left s.halfSent hperm)
      simpa using hmid
    · refine List.Perm.trans ?_ h2
      refine List.Perm.append_left _ (List.Perm.filter _ ?_)
      have hmap := List.Perm.map (taskSlot env conceptDictionary) hperm
      simp only [List.map_cons] at hmap
      simpa [List.append_assoc] using List.Perm.append_left s.specsChan hmap
    · simp only [List.length_append, List.length_singleton]
      omega
  | sendResult specFile =>
    obtain ⟨hmem, _, rfl⟩ := step_sendResult env hparse conceptDictionary cap s next specFile h
    have hperm : (specFile :: s.halfSent.erase specFile).Perm s.halfSent :=
      (List.perm_cons_erase hmem).symm
    refine ⟨?_, h2, h3, h4, h5⟩
    refine List.Perm.trans ?_ h1
    refine List.Perm.append_left _ ?_
    have hmap := List.Perm.map (taskResult env conceptDictionary)
      (List.Perm.append_right s.unsent hperm)
    simp only [List.map_cons, List.cons_append] at hmap
    simpa [List.append_assoc] using List.Perm.append_left s.parseResultsChan hmap
  | recvResult =>
    obtain ⟨hgot, hpos, parseResult, rest, hchan, rfl⟩ :=
      step_recvResult env conceptDictionary cap s next h
    rw [hchan] at h1
    rw [hgot] at h4
    refine ⟨?_, h2, h3, ?_, h5⟩
    · simpa [List.append_assoc] using h1
    · simp only [List.length_append, List.length_singleton, if_true]
      simp only [Bool.false_eq_true, if_false] at h4
      omega
  | recvSpec =>
    obtain ⟨hgot, hpos, spec, rest, hchan, rfl⟩ :=
      step_recvSpec env conceptDictionary cap s next h
    rw [hchan] at h2 h3
    rw [hgot] at h4
    simp only [if_true] at h4
    simp only [List.length_cons] at h3
    refine ⟨h1, ?_, ?_, ?_, ?_⟩
    · cases hs : spec.isSome with
      | true =>
        simp only [if_true]
        simpa [List.filter_cons, hs, List.append_assoc] using h2
      | false =>
        simp only [Bool.false_eq_true, if_false]
        simpa [List.filter_cons, hs] using h2
    · show rest.length + s.unsent.length = s.pending - 1
      omega
    · show s.parseResults.length + (s.pending - 1) = specFiles.length + (if false = true then 1 else 0)
      simp only [Bool.false_eq_true, if_false]
      omega
    · show s.pending - 1 ≤ specFiles.length
      omega

/-- A run keeps the invariant. -/
theorem Inv_run {D : Type} (env : Collaborators D) (hparse : parserGivesSpec env)
    (conceptDictionary : D) (specFiles : List String) (cap : Nat) (schedule : List Action) :
    ∀ s next : DispatchState, s.Inv env conceptDictionary specFiles →
      s.run env conceptDictionary cap schedule = some next →
      next.Inv env conceptDictionary specFiles := by
  induction schedule with
  | nil =>
    intro s next hinv h
    cases h
    exact hinv
  | cons action rest ih =>
    intro s next hinv h
    simp only [DispatchState.run] at h
    cases hstep : s.step env conceptDictionary cap action with
    | none => rw [hstep] at h; cases h
    | some mid =>
      rw [hstep] at h
      exact ih mid next
        (Inv_step env hparse conceptDictionary specFiles cap s mid action hinv hstep) h

/-- Running two schedules one after the other. -/
theorem run_append {D : Type} (env : Collaborators D) (conceptDictionary : D) (cap : Nat)
    (first second : List Action) :
    ∀ s mid : DispatchState, s.run env conceptDictionary cap first = some mid →
      s.run env conceptDictionary cap (first ++ second)
        = mid.run env conceptDictionary cap second := by
  induction first with
  | nil =>
    intro s mid h
    cases h
    rfl
  | cons action rest ih =>
    intro s mid h
    simp only [DispatchState.run, List.cons_append] at h ⊢
    cases hstep : s.step env conceptDictionary cap action with
    | none => rw [hstep] at h; cases h
    | some after =>
      rw [hstep] at h
      simp only [hstep]
      exact ih after mid h

/-- Every action uses up fuel. -/
theorem fuel_step {D : Type} (env : Collaborators D) (hparse : parserGivesSpec env)
    (conceptDictionary : D) (cap : Nat) (s next : DispatchState) (action : Action)
    (h : s.step env conceptDictionary cap action = some next) : next.fuel < s.fuel := by
  cases action with
  | sendSpec specFile =>
    obtain ⟨hmem, _, rfl⟩ := step_sendSpec env hparse conceptDictionary cap s next specFile h
    have hlen := (List.perm_cons_erase hmem).length_eq
    simp only [List.length_cons] at hlen
    simp only [DispatchState.fuel, List.length_cons]
    omega
  | sendResult specFile =>
    obtain ⟨hmem, _, rfl⟩ := step_sendResult env hparse conceptDictionary cap s next specFile h
    have hlen := (List.perm_cons_erase hmem).length_eq
    simp only [List.length_cons] at hlen
    simp only [DispatchState.fuel]
    omega
  | recvResult =>
    obtain ⟨hgot, _, parseResult, rest, _, rfl⟩ :=
      step_recvResult env conceptDictionary cap s next h
    simp only [DispatchState.fuel, hgot, if_true, Bool.false_eq_true, if_false]
    omega
  | recvSpec =>
    obtain ⟨hgot, hpos, spec, rest, _, rfl⟩ := step_recvSpec env conceptDictionary cap s next h
    simp only [DispatchState.fuel, hgot, if_true, Bool.false_eq_true, if_false]
    omega

/-- A run is no longer than the fuel it uses up. -/
theorem fuel_run {D : Type} (env : Collaborators D) (hparse : parserGivesSpec env)
    (conceptDictionary : D) (cap : Nat) (schedule : List Action) :
    ∀ s next : DispatchState, s.run env conceptDictionary cap schedule = some next →
      schedule.length + next.fuel ≤ s.fuel := by
  induction schedule with
  | nil =>
    intro s next h
    cases h
    simp
  | cons action rest ih =>
    intro s next h
    simp only [DispatchState.run] at h
    cases hstep : s.step env conceptDictionary cap action with
    | none => rw [hstep] at h; cases h
    | some mid =>
      rw [hstep] at h
      have h1 := ih mid next h
      have h2 := fuel_step env hparse conceptDictionary cap s mid action hstep
      simp only [List.length_cons]
      omega

/-- While the collecting loop has iterations left, some action can be taken:
no state of a run is stuck. -/
theorem Inv_progress {D : Type} (env : Collaborators D) (hparse : parserGivesSpec env)
    (conceptDictionary : D) (specFiles : List String) (s : DispatchState)
    (hinv : s.Inv env conceptDictionary specFiles) (hpending : s.pending ≠ 0) :
    ∃ action next, s.step env conceptDictionary specFiles.length action = some next := by
  obtain ⟨h1, _, h3, h4, h5⟩ := hinv
  have hlen := h1.length_eq
  simp only [List.length_append, List.length_map] at hlen
  have hpos : 0 < s.pending := Nat.pos_of_ne_zero hpending
  have hsome : ∃ action,
      (s.step env conceptDictionary specFiles.length action).isSome = true := by
    cases hgot : s.gotResult with
    | false =>
      rw [hgot] at h4
      simp only [Bool.false_eq_true, if_false] at h4
      cases hchan : s.parseResultsChan with
      | cons parseResult rest =>
        exact ⟨.recvResult, by simp [DispatchState.step, hgot, hpos, hchan]⟩
      | nil =>
        rw [hchan] at hlen
        simp only [List.length_nil] at hlen
        cases hhalf : s.halfSent with
        | cons specFile rest =>
          have hcap : 0 < specFiles.length := by omega
          exact ⟨.sendResult specFile, by
            simp [DispatchState.step, parseSpec_eq env hparse, hhalf, hchan, hcap]⟩
        | nil =>
          rw [hhalf] at hlen
          simp only [List.length_nil] at hlen
          cases hun : s.unsent with
          | nil =>
            rw [hun] at hlen
            simp only [List.length_nil] at hlen
            omega
          | cons specFile rest =>
            rw [hun] at h3
            simp only [List.length_cons] at h3
            have hcap : s.specsChan.length < specFiles.length := by omega
            exact ⟨.sendSpec specFile, by
              simp [DispatchState.step, parseSpec_eq env hparse, hun, hcap]⟩
    | true =>
      cases hchan : s.specsChan with
      | cons spec rest =>
        exact ⟨.recvSpec, by simp [DispatchState.step, hgot, hpos, hchan]⟩
      | nil =>
        rw [hchan] at h3
        simp only [List.length_nil] at h3
        cases hun : s.unsent with
        | nil =>
          rw [hun] at h3
          simp only [List.length_nil] at h3
          omega
        | cons specFile rest =>
          have hcap : 0 < specFiles.length := by omega
          exact ⟨.sendSpec specFile, by
            simp [DispatchState.step, parseSpec_eq env hparse, hun, hchan, hcap]⟩
  obtain ⟨action, haction⟩ := hsome
  obtain ⟨next, hnext⟩ := Option.isSome_iff_exists.mp haction
  exact ⟨action, next, hnext⟩

/-- From every state of a run the collecting loop can be brought to its end. -/
theorem Inv_completes {D : Type} (env : Collaborators D) (hparse : parserGivesSpec env)
    (conceptDictionary : D) (specFiles : List String) (fuel : Nat) :
    ∀ s : DispatchState, s.Inv env conceptDictionary specFiles → s.fuel ≤ fuel →
      ∃ rest last, s.run env conceptDictionary specFiles.length rest = some last ∧
        last.pending = 0 := by
  induction fuel with
  | zero =>
    intro s _ hfuel
    refine ⟨[], s, rfl, ?_⟩
    simp only [DispatchState.fuel] at hfuel
    omega
  | succ n ih =>
    intro s hinv hfuel
    by_cases hpending : s.pending = 0
    · exact ⟨[], s, rfl, hpending⟩
    · obtain ⟨action, next, hstep⟩ :=
        Inv_progress env hparse conceptDictionary specFiles s hinv hpending
      have hlt := fuel_step env hparse conceptDictionary specFiles.length s next action hstep
      obtain ⟨rest, last, hrun, hlast⟩ := ih next
        (Inv_step env hparse conceptDictionary specFiles specFiles.length s next action hinv
          hstep) (by omega)
      refine ⟨action :: rest, last, ?_, hlast⟩
      simp only [DispatchState.run, hstep]
      exact hrun

/-- When the collecting loop has ended, the results collected are the results
of the tasks and the Specifications collected are the non-nil slots of the
tasks, each in some order. -/
theorem Inv_final {D : Type} (env : Collaborators D) (conceptDictionary : D)
    (specFiles : List String) (s : DispatchState)
    (hinv : s.Inv env conceptDictionary specFiles) (hpending : s.pending = 0) :
    s.parseResults.Perm (specFiles.map (taskResult env conceptDictionary)) ∧
      s.specs.Perm ((specFiles.map (taskSlot env conceptDictionary)).filter Option.isSome) := by
  obtain ⟨h1, h2, h3, h4, _⟩ := hinv
  have hlen := h1.length_eq
  simp only [List.length_append, List.length_map] at hlen
  rw [hpending] at h3 h4
  have hchan : s.specsChan = [] := List.length_eq_zero.mp (by omega)
  have hun : s.unsent = [] := List.length_eq_zero.mp (by omega)
  have hcases : s.parseResults.length ≤ specFiles.length := by omega
  have hres : s.parseResultsChan = [] := List.length_eq_zero.mp (by
    split at h4 <;> omega)
  have hhalf : s.halfSent = [] := List.length_eq_zero.mp (by
    split at h4 <;> omega)
  rw [hres, hhalf, hun] at h1
  rw [hchan, hun] at h2
  constructor
  · simpa using h1
  · simpa using h2

/-! ## Parse tasks and the dispatcher -/

/-- The result of a task is stamped with the file of the task. -/
theorem taskResult_FileName {D : Type} (env : Collaborators D) (conceptDictionary : D)
    (specFile : String) : (taskResult env conceptDictionary specFile).FileName = specFile := by
  unfold taskResult
  cases env.ReadFileContents specFile <;> rfl

/-- Under the parser contract the slot of a task is a Specification exactly when
the result of the task is successful. -/
theorem taskSlot_isSome {D : Type} (env : Collaborators D) (hparse : parserGivesSpec env)
    (conceptDictionary : D) (specFile : String) :
    (taskSlot env conceptDictionary specFile).isSome
      = (taskResult env conceptDictionary specFile).Ok := by
  unfold taskSlot taskResult
  cases hread : env.ReadFileContents specFile with
  | error err => rfl
  | ok content =>
    simp only []
    cases hok : (env.parse content conceptDictionary).2.Ok with
    | false => simp
    | true =>
      have hsome := hparse content conceptDictionary hok
      simpa using hsome

/-- The Specification of a task is stamped with the file of the task. -/
theorem taskSlot_FileName {D : Type} (env : Collaborators D) (conceptDictionary : D)
    (specFile : String) (spec : Specification)
    (h : taskSlot env conceptDictionary specFile = some spec) : spec.FileName = specFile := by
  unfold taskSlot at h
  cases hread : env.ReadFileContents specFile with
  | error err =>
    rw [hread] at h
    cases h
  | ok content =>
    rw [hread] at h
    simp only [] at h
    split at h
    · cases hspec : (env.parse content conceptDictionary).1 with
      | none =>
        rw [hspec] at h
        cases h
      | some parsed =>
        rw [hspec] at h
        cases h
        rfl
    · cases h

/-- The example parser gives a Specification with every successful result. -/
theorem exampleCollaborators_parserGivesSpec : parserGivesSpec exampleCollaborators := by
  intro content conceptDictionary hok
  simp only [exampleCollaborators] at hok ⊢
  split at hok
  · cases hok
  · rename_i hne
    simp [hne]

/-- C12: under the parser contract (a successful result comes with a
Specification), the task of a file `f` sends exactly one Specification slot and
exactly one result; the result is stamped with `f`; the slot is nil exactly when
the result has `Ok = false`. When the file cannot be read, the result is
`Ok = false` with the text of the I/O error as message, the slot is nil, and the
outcome is the same whatever the parser is; when the parser fails, its result is
sent, stamped, with a nil slot; when it succeeds, its Specification is sent
stamped with `f`. -/
theorem parseSpec_spec {D : Type} (env : Collaborators D) (hparse : parserGivesSpec env)
    (f : String) (conceptDictionary : D)
    (specChannel : List (Option Specification)) (parseResultChan : List ParseResult) :
    ∃ slot result,
      parseSpec env f conceptDictionary specChannel parseResultChan
        = .ok (specChannel ++ [slot], parseResultChan ++ [result]) ∧
      result.FileName = f ∧
      (slot = none ↔ result.Ok = false) ∧
      (match env.ReadFileContents f with
        | .error err =>
          slot = none ∧ result = ⟨some ⟨err⟩, false, f⟩ ∧
          ∀ env2 : Collaborators D, env2.ReadFileContents = env.ReadFileContents →
            parseSpec env2 f conceptDictionary specChannel parseResultChan
              = parseSpec env f conceptDictionary specChannel parseResultChan
        | .ok content =>
          result = { (env.parse content conceptDictionary).2 with FileName := f } ∧
          (result.Ok = false → slot = none) ∧
          (result.Ok = true → ∃ spec, (env.parse content conceptDictionary).1 = some spec ∧
            slot = some { spec with FileName := f })) := by
  refine ⟨taskSlot env conceptDictionary f, taskResult env conceptDictionary f,
    parseSpec_eq env hparse f conceptDictionary specChannel parseResultChan,
    taskResult_FileName env conceptDictionary f, ?_, ?_⟩
  · have h := taskSlot_isSome env hparse conceptDictionary f
    cases hslot : taskSlot env conceptDictionary f <;>
      cases hok : (taskResult env conceptDictionary f).Ok <;>
      simp_all
  · cases hread : env.ReadFileContents f with
    | error err =>
      refine ⟨?_, ?_, ?_⟩
      · simp [taskSlot, hread]
      · simp [taskResult, hread]
      · intro env2 hsame
        simp [parseSpec, hsame, hread]
    | ok content =>
      refine ⟨?_, ?_, ?_⟩
      · simp [taskResult, hread]
      · intro hfalse
        have hfalse2 : (env.parse content conceptDictionary).2.Ok = false := by
          simpa [taskResult, hread] using hfalse
        simp [taskSlot, hread, hfalse2]
      · intro htrue
        have htrue2 : (env.parse content conceptDictionary).2.Ok = true := by
          simpa [taskResult, hread] using htrue
        have hsome := hparse content conceptDictionary htrue2
        obtain ⟨spec, hspec⟩ := Option.isSome_iff_exists.mp hsome
        exact ⟨spec, hspec, by simp [taskSlot, hread, htrue2, hspec]⟩

/-- Witness of `parseSpec_spec`: the task of the unreadable file `missing.spec`
with the example collaborators. -/
theorem parseSpec_spec_witness :
    ∃ slot result,
      parseSpec exampleCollaborators "missing.spec" () [] [] = .ok ([] ++ [slot], [] ++ [result]) ∧
      result.FileName = "missing.spec" ∧ (slot = none ↔ result.Ok = false) := by
  obtain ⟨slot, result, hsend, hname, hiff, _⟩ :=
    parseSpec_spec exampleCollaborators exampleCollaborators_parserGivesSpec "missing.spec" ()
      [] []
  exact ⟨slot, result, hsend, hname, hiff⟩

/-- What `ParseSpecFiles` returns comes from a state of a run in which the
collecting loop has ended. -/
theorem ParseSpecFiles_eq_some {D : Type} (env : Collaborators D) (specFiles : List String)
    (conceptDictionary : D) (schedule : List Action)
    (specs : List (Option Specification)) (results : List ParseResult)
    (h : ParseSpecFiles env specFiles conceptDictionary schedule = some (specs, results)) :
    ∃ s, (DispatchState.init specFiles).run env conceptDictionary specFiles.length schedule
        = some s ∧ s.pending = 0 ∧ s.specs = specs ∧ s.parseResults = results := by
  unfold ParseSpecFiles at h
  split at h
  · rename_i s hrun
    split at h
    · rename_i hpending
      cases h
      exact ⟨s, hrun, hpending, rfl, rfl⟩
    · cases h
  · cases h

/-- C13: under the parser contract, whatever the order of the sends and
receives, the result list returned by `ParseSpecFiles` for `N` files has exactly
`N` entries, and their file names are a permutation of the input list (the list
itself is a permutation of the results of the `N` tasks). Every such order can
be carried on until the function returns, and it takes at most `4 * N + 1`
actions. -/
theorem ParseSpecFiles_results {D : Type} (env : Collaborators D)
    (hparse : parserGivesSpec env) (specFiles : List String) (conceptDictionary : D) :
    (∀ schedule specs results,
        ParseSpecFiles env specFiles conceptDictionary schedule = some (specs, results) →
        results.length = specFiles.length ∧
        (results.map fun r => r.FileName).Perm specFiles ∧
        results.Perm (specFiles.map (taskResult env conceptDictionary))) ∧
      (∀ schedule s,
        (DispatchState.init specFiles).run env conceptDictionary specFiles.length schedule
          = some s →
        schedule.length ≤ 4 * specFiles.length + 1 ∧
        ∃ rest specs results,
          ParseSpecFiles env specFiles conceptDictionary (schedule ++ rest)
            = some (specs, results)) := by
  constructor
  · intro schedule specs results h
    obtain ⟨s, hrun, hpending, _, rfl⟩ :=
      ParseSpecFiles_eq_some env specFiles conceptDictionary schedule specs _ h
    have hinv := Inv_run env hparse conceptDictionary specFiles specFiles.length schedule _ s
      (Inv_init env conceptDictionary specFiles) hrun
    have hperm := (Inv_final env conceptDictionary specFiles s hinv hpending).1
    refine ⟨by simpa using hperm.length_eq, ?_, hperm⟩
    have hnames := hperm.map fun r => r.FileName
    have hid : (specFiles.map (taskResult env conceptDictionary)).map (fun r => r.FileName)
        = specFiles := by
      rw [List.map_map]
      conv => rhs; rw [← List.map_id specFiles]
      exact List.map_congr_left fun f _ => taskResult_FileName env conceptDictionary f
    rwa [hid] at hnames
  · intro schedule s hrun
    have hinv := Inv_run env hparse conceptDictionary specFiles specFiles.length schedule _ s
      (Inv_init env conceptDictionary specFiles) hrun
    have hfuel := fuel_run env hparse conceptDictionary specFiles.length schedule _ s hrun
    constructor
    · simp only [DispatchState.fuel, DispatchState.init, List.length_nil] at hfuel
      simp only [Bool.false_eq_true, if_false] at hfuel
      omega
    · obtain ⟨rest, last, hrest, hlast⟩ :=
        Inv_completes env hparse conceptDictionary specFiles s.fuel s hinv (le_refl _)
      refine ⟨rest, last.specs, last.parseResults, ?_⟩
      unfold ParseSpecFiles
      rw [run_append env conceptDictionary specFiles.length schedule rest _ s hrun, hrest]
      simp [hlast]

/-- Witness of `ParseSpecFiles_results`: the files `a.spec` and `b.spec` with the
example collaborators, where the task of `b.spec` finishes first. -/
theorem ParseSpecFiles_results_witness :
    ([({ ParseError := some ⟨"no heading"⟩, Ok := false, FileName := "b.spec" } : ParseResult),
      { ParseError := none, Ok := true, FileName := "a.spec" }].map fun r => r.FileName).Perm
      ["a.spec", "b.spec"] :=
  ((ParseSpecFiles_results exampleCollaborators exampleCollaborators_parserGivesSpec
    ["a.spec", "b.spec"] ()).1
    [.sendSpec "b.spec", .sendResult "b.spec", .sendSpec "a.spec", .recvResult,
      .sendResult "a.spec", .recvSpec, .recvResult, .recvSpec]
    [some { heading := ⟨"# A"⟩, items := [], tags := none, FileName := "a.spec" }]
    [{ ParseError := some ⟨"no heading"⟩, Ok := false, FileName := "b.spec" },
      { ParseError := none, Ok := true, FileName := "a.spec" }] rfl).2.1

/-- C14: under the parser contract, whatever the order of the sends and
receives, a Specification stamped with a file `f` is in the Specification list
returned by `ParseSpecFiles` if and only if the returned result list has a result
for `f` with `Ok = true`; the Specification list has no nil entry, and its length
is the number of returned results with `Ok = true`. -/
theorem ParseSpecFiles_specs {D : Type} (env : Collaborators D)
    (hparse : parserGivesSpec env) (specFiles : List String) (conceptDictionary : D)
    (schedule : List Action) (specs : List (Option Specification))
    (results : List ParseResult)
    (hreturn : ParseSpecFiles env specFiles conceptDictionary schedule = some (specs, results)) :
    (∀ f : String, (∃ spec, some spec ∈ specs ∧ spec.FileName = f) ↔
        (∃ r, r ∈ results ∧ r.FileName = f ∧ r.Ok = true)) ∧
      none ∉ specs ∧
      specs.length = (results.filter fun r => r.Ok).length := by
  obtain ⟨s, hrun, hpending, rfl, rfl⟩ :=
    ParseSpecFiles_eq_some env specFiles conceptDictionary schedule specs results hreturn
  have hinv := Inv_run env hparse conceptDictionary specFiles specFiles.length schedule _ s
    (Inv_init env conceptDictionary specFiles) hrun
  obtain ⟨hres, hspecs⟩ := Inv_final env conceptDictionary specFiles s hinv hpending
  refine ⟨fun f => ⟨?_, ?_⟩, ?_, ?_⟩
  · rintro ⟨spec, hmem, hname⟩
    have hmem2 := hspecs.mem_iff.mp hmem
    rw [List.mem_filter, List.mem_map] at hmem2
    obtain ⟨⟨g, hg, hslot⟩, _⟩ := hmem2
    have hgf : g = f := by
      rw [← hname]
      exact (taskSlot_FileName env conceptDictionary g spec hslot).symm
    subst hgf
    refine ⟨taskResult env conceptDictionary g, hres.mem_iff.mpr (List.mem_map.mpr ⟨g, hg, rfl⟩),
      taskResult_FileName env conceptDictionary g, ?_⟩
    rw [← taskSlot_isSome env hparse conceptDictionary g, hslot]
    rfl
  · rintro ⟨r, hmem, hname, hok⟩
    have hmem2 := hres.mem_iff.mp hmem
    rw [List.mem_map] at hmem2
    obtain ⟨g, hg, rfl⟩ := hmem2
    rw [taskResult_FileName] at hname
    subst hname
    rw [← taskSlot_isSome env hparse conceptDictionary g] at hok
    obtain ⟨spec, hslot⟩ := Option.isSome_iff_exists.mp hok
    refine ⟨spec, hspecs.mem_iff.mpr ?_, taskSlot_FileName env conceptDictionary g spec hslot⟩
    rw [List.mem_filter, List.mem_map]
    exact ⟨⟨g, hg, hslot⟩, rfl⟩
  · intro hmem
    have hmem2 := hspecs.mem_iff.mp hmem
    rw [List.mem_filter] at hmem2
    exact absurd hmem2.2 (by simp)
  · rw [hspecs.length_eq, (hres.filter _).length_eq]
    have hcongr : ∀ files : List String,
        ((files.map (taskSlot env conceptDictionary)).filter Option.isSome).length
          = ((files.map (taskResult env conceptDictionary)).filter fun r => r.Ok).length := by
      intro files
      induction files with
      | nil => rfl
      | cons g rest ih =>
        simp only [List.map_cons, List.filter_cons,
          taskSlot_isSome env hparse conceptDictionary g]
        split <;> simp [ih]
    exact hcongr specFiles

/-- Witness of `ParseSpecFiles_specs`: the files `a.spec` and `b.spec` with the
example collaborators; only `a.spec` parses, and its Specification is the one
returned. -/
theorem ParseSpecFiles_specs_witness :
    [some ({ heading := ⟨"# A"⟩, items := [], tags := none, FileName := "a.spec" } :
        Specification)].length
      = ([({ ParseError := some ⟨"no heading"⟩, Ok := false, FileName := "b.spec" } : ParseResult),
          { ParseError := none, Ok := true, FileName := "a.spec" }].filter fun r => r.Ok).length :=
  (ParseSpecFiles_specs exampleCollaborators exampleCollaborators_parserGivesSpec
    ["a.spec", "b.spec"] ()
    [.sendSpec "b.spec", .sendResult "b.spec", .sendSpec "a.spec", .recvResult,
      .sendResult "a.spec", .recvSpec, .recvResult, .recvSpec]
    [some { heading := ⟨"# A"⟩, items := [], tags := none, FileName := "a.spec" }]
    [{ ParseError := some ⟨"no heading"⟩, Ok := false, FileName := "b.spec" },
      { ParseError := none, Ok := true, FileName := "a.spec" }] rfl).2.2

/-! ## Sharing between a table and its message -/

/-- Read in any heap, the message built on references is the message that
`convertToProtoTableParam` builds from the table read in that heap. -/
theorem convertToProtoTableParamRef_value (heap : Heap) (table : TableRef) :
    (convertToProtoTableParamRef table).value heap
      = convertToProtoTableParam (table.value heap) := by
  simp [convertToProtoTableParamRef, ProtoTableRef.value, convertToProtoTableParam,
    TableRef.value, Table.Rows, Function.comp_def]

/-- C15 (evaluation at the failing input): a table with the header row
`["id", "name"]` at address `0` and no rows is converted; the message reads
`["id", "name"]`. After the assignment `table.Headers[0] = "changed"` the same
message reads `["changed", "name"]`: the header row of the message is the header
slice of the table, not a copy. -/
theorem convertToProtoTableParam_shares_headers :
    GetCells ((convertToProtoTableParamRef ⟨⟨0⟩, []⟩).value
        (fun address => if address = 0 then ["id", "name"] else [])).Headers
      = ["id", "name"] ∧
    GetCells ((convertToProtoTableParamRef ⟨⟨0⟩, []⟩).value
        (Heap.write (fun address => if address = 0 then ["id", "name"] else [])
          (TableRef.mk ⟨0⟩ []).Headers 0 "changed")).Headers
      = ["changed", "name"] := by
  constructor <;> decide

end Gauge
